import Mathlib

/-!
Verification of the document-to-record extraction and duplicate-detection
engine of `bot_melhorado.py` (repository `controle-bot-pop`).

The Python source is shallowly embedded: Python strings are modeled as
`String` / `List Char` (the ASCII fragment of Python's `str` methods, which
is the fragment every claim exercises), Python `float` values carrying
monetary amounts are modeled as exact rationals `ℚ`, `datetime.date`
values as a `DataObj` record of day/month/year numerals, and the external
Google-Sheets ledger as an optional in-memory table (`Option` encodes the
connection / worksheet-lookup failures that the source catches).
Each definition carries the name of the Python function it translates.
-/

set_option maxRecDepth 8000

attribute [local semireducible] Rat.add Rat.sub Rat.mul Rat.inv Rat.ofScientific

/-! ## Python string primitives (ASCII fragment), over `List Char` -/

/-- Python `str.strip()` on a list of characters: drop whitespace from both
ends. -/
def stripL (s : List Char) : List Char :=
  ((s.dropWhile Char.isWhitespace).reverse.dropWhile Char.isWhitespace).reverse

/-- Python `str.strip()` on `String`. -/
def pyStrip (s : String) : String := ⟨stripL s.data⟩

/-- Python `c in s` membership test for a single character. -/
def containsC (c : Char) (s : List Char) : Bool := s.any (fun x => x = c)

/-- Python `s.count(c)` for a single character. -/
def countC (c : Char) : List Char → Nat
  | [] => 0
  | x :: xs => (if x = c then 1 else 0) + countC c xs

/-- Python `s.rfind(c)`: index of the last occurrence of `c`, `-1` if
absent. -/
def rfindC (c : Char) : List Char → Int
  | [] => -1
  | x :: xs =>
    let r := rfindC c xs
    if 0 ≤ r then r + 1 else if x = c then 0 else -1

/-- Python `s.split(sep)` for a one-character separator. -/
def splitC (sep : Char) : List Char → List (List Char)
  | [] => [[]]
  | x :: xs =>
    if x = sep then [] :: splitC sep xs
    else
      match splitC sep xs with
      | [] => [[x]]
      | h :: t => (x :: h) :: t

/-- Python `s.replace(a, '')` for a one-character pattern: every occurrence
of `a` is removed. -/
def removeChar (a : Char) (s : List Char) : List Char := s.filter (fun c => !(c = a))

/-- Python `s.replace(a, b)` for one-character pattern and replacement. -/
def trocaChar (a b : Char) (s : List Char) : List Char :=
  s.map (fun c => if c = a then b else c)

/-- Python `s.replace('R$', '')`: remove every (non-overlapping, scanned
left to right) occurrence of the two-character currency marker. -/
def removeRS : List Char → List Char
  | [] => []
  | [c] => [c]
  | c :: d :: t => if c = 'R' ∧ d = '$' then removeRS t else c :: removeRS (d :: t)

/-- All characters are decimal digits (Python's `float` accepts only digit
runs in the fragment we model). -/
def allDigits (s : List Char) : Bool := s.all Char.isDigit

/-- Numeric value of a decimal digit character. -/
def charToDigit (c : Char) : Nat := c.toNat - 48

/-- Value of a most-significant-first digit string. -/
def digitsVal (s : List Char) : Nat := s.foldl (fun a c => 10 * a + charToDigit c) 0

/-- Python `float(s)` on the fragment the program feeds it: an optional
sign followed by decimal digits with at most one decimal point (exponents,
`inf`/`nan` and underscores never reach the call sites modeled here).
`none` models the `ValueError` that every caller catches. -/
def parseFloatCore (neg : Bool) (r : List Char) : Option ℚ :=
  match splitC '.' r with
  | [a] =>
    if a ≠ [] ∧ allDigits a then
      some (if neg then -(digitsVal a : ℚ) else (digitsVal a : ℚ))
    else none
  | [a, b] =>
    if (a ++ b) ≠ [] ∧ allDigits a ∧ allDigits b then
      let q : ℚ := (digitsVal (a ++ b) : ℚ) / (10 : ℚ) ^ b.length
      some (if neg then -q else q)
    else none
  | _ => none

def parseFloatL (s0 : List Char) : Option ℚ :=
  let s := stripL s0
  parseFloatCore (decide (s.headD ' ' = '-'))
    (if s.headD ' ' = '+' ∨ s.headD ' ' = '-' then s.tail else s)

/-! ## `converter_valor_para_float` (source lines 146-183) -/

/-- Core of `converter_valor_para_float` on character lists. Mirrors the
source: empty input short-circuits to `0.0`; the string is stripped, the
`R$` marker removed, and the decimal separator disambiguated (when both
`,` and `.` occur the later one is decimal; when only `,` occurs it is
decimal exactly when it is unique with two trailing digits); the final
`float` call falls back to `0.0` on failure. -/
def convL (s0 : List Char) : ℚ :=
  if s0 = [] then 0
  else
    let s1 := stripL s0
    let s2 := stripL (removeRS s1)
    if containsC ',' s2 && containsC '.' s2 then
      if rfindC '.' s2 < rfindC ',' s2 then
        (parseFloatL (trocaChar ',' '.' (removeChar '.' s2))).getD 0
      else
        (parseFloatL (removeChar ',' s2)).getD 0
    else if containsC ',' s2 then
      if countC ',' s2 = 1 then
        if ((splitC ',' s2).getD 1 []).length = 2 then
          (parseFloatL (trocaChar ',' '.' s2)).getD 0
        else
          (parseFloatL (removeChar ',' s2)).getD 0
      else (parseFloatL s2).getD 0
    else (parseFloatL s2).getD 0

/-- `converter_valor_para_float` of the source, on `String`. -/
def converter_valor_para_float (s : String) : ℚ := convL s.data

/-! ## Dates: `normalizar_data` (source lines 102-144) and calendar arithmetic -/

/-- First `some` produced by `f` along a list (models a Python loop that
returns on its first hit). -/
def firstSome (f : α → Option β) : List α → Option β
  | [] => none
  | x :: xs =>
    match f x with
    | some b => some b
    | none => firstSome f xs

/-- Decimal digit character for a value below ten. -/
def digitChar10 : Nat → Char
  | 0 => '0' | 1 => '1' | 2 => '2' | 3 => '3' | 4 => '4'
  | 5 => '5' | 6 => '6' | 7 => '7' | 8 => '8' | 9 => '9'
  | _ => '0'

/-- Least-significant-first decimal digits of `n`, with explicit fuel so the
definition stays kernel-reducible. -/
def natDigitsRev (fuel : Nat) (n : Nat) : List Nat :=
  match fuel with
  | 0 => []
  | f + 1 => if n = 0 then [] else n % 10 :: natDigitsRev f (n / 10)

/-- Decimal rendering of a natural number, most significant digit first
(`str(n)` in Python). -/
def charDigits (n : Nat) : List Char :=
  if n = 0 then ['0'] else ((natDigitsRev n n).map digitChar10).reverse

/-- Zero-padded decimal rendering of width `w` (`strftime` field padding). -/
def pad0 (w n : Nat) : List Char :=
  let ds := charDigits n
  List.replicate (w - ds.length) '0' ++ ds

/-- A calendar date as Python's `datetime` carries it (day, month, year). -/
structure DataObj where
  dia : Nat
  mes : Nat
  ano : Nat
deriving DecidableEq

/-- Gregorian leap-year rule (Python `calendar`/`datetime` semantics). -/
def anoBissexto (y : Nat) : Bool := y % 4 = 0 && (y % 100 ≠ 0 || y % 400 = 0)

/-- Days in a month of a given year. -/
def diasNoMes (m y : Nat) : Nat :=
  if m = 2 then (if anoBissexto y then 29 else 28)
  else if m = 4 || m = 6 || m = 9 || m = 11 then 30
  else 31

/-- Validity as enforced by `datetime`'s constructor (which `strptime`
invokes after its pattern match; failure raises `ValueError`). -/
def dataValida (d : DataObj) : Bool :=
  1 ≤ d.ano && d.ano ≤ 9999 && 1 ≤ d.mes && d.mes ≤ 12 && 1 ≤ d.dia && d.dia ≤ diasNoMes d.mes d.ano

/-- Absolute day number of a date (proleptic Gregorian, via the standard
days-from-civil computation, offset by a constant that cancels in every
difference). Models `datetime` subtraction / `timedelta` comparison. -/
def civilN (d : DataObj) : Nat :=
  let y := if d.mes ≤ 2 then d.ano - 1 else d.ano
  let era := y / 400
  let yoe := y % 400
  let mp := if 2 < d.mes then d.mes - 3 else d.mes + 9
  let doy := (153 * mp + 2) / 5 + d.dia - 1
  let doe := yoe * 365 + yoe / 4 - yoe / 100 + doy
  era * 146097 + doe

/-- Python `data_inicio <= data_planilha_obj <= data_fim` where the window
bounds are `data_obj` minus and plus `timedelta(days=margem)`. -/
def dentroJanela (cand row : DataObj) (margem : Nat) : Bool :=
  decide ((civilN cand : Int) - margem ≤ (civilN row : Int)) &&
    decide ((civilN row : Int) ≤ (civilN cand : Int) + margem)

/-- CPython `strptime` day field (`3[01]|[12]\d|0[1-9]|[1-9]`): one or two
digits denoting 1-31, leading zero allowed, `00` refused. -/
def campoDia (f : List Char) : Option Nat :=
  if allDigits f then
    let v := digitsVal f
    if (f.length = 2 && 1 ≤ v && v ≤ 31) || (f.length = 1 && 1 ≤ v && v ≤ 9) then some v
    else none
  else none

/-- CPython `strptime` month field (`1[0-2]|0[1-9]|[1-9]`). -/
def campoMes (f : List Char) : Option Nat :=
  if allDigits f then
    let v := digitsVal f
    if (f.length = 2 && 1 ≤ v && v ≤ 12) || (f.length = 1 && 1 ≤ v && v ≤ 9) then some v
    else none
  else none

/-- CPython `strptime` `%Y` field: exactly four digits. -/
def campoAno4 (f : List Char) : Option Nat :=
  if allDigits f && f.length = 4 then some (digitsVal f) else none

/-- CPython `strptime` `%y` field: exactly two digits, expanded by the
POSIX pivot (`00`-`68` to the 2000s, `69`-`99` to the 1900s) before the
surrounding code ever sees the year. -/
def campoAno2 (f : List Char) : Option Nat :=
  if allDigits f && f.length = 2 then
    let v := digitsVal f
    some (if v ≤ 68 then 2000 + v else 1900 + v)
  else none

/-- Date construction: `datetime(...)` validity or `ValueError`. -/
def mkData (d m y : Nat) : Option DataObj :=
  if dataValida ⟨d, m, y⟩ then some ⟨d, m, y⟩ else none

/-- One `strptime` attempt for a day-month-year format with a literal
separator (`%d<sep>%m<sep>%Y` or the `%y` variant). -/
def parseDMY (sep : Char) (ano2 : Bool) (s : List Char) : Option DataObj :=
  match splitC sep s with
  | [fd, fm, fy] => do
    let d ← campoDia fd
    let m ← campoMes fm
    let y ← if ano2 then campoAno2 fy else campoAno4 fy
    mkData d m y
  | _ => none

/-- One `strptime` attempt for `%Y<sep>%m<sep>%d`. -/
def parseYMD (sep : Char) (s : List Char) : Option DataObj :=
  match splitC sep s with
  | [fy, fm, fd] => do
    let y ← campoAno4 fy
    let m ← campoMes fm
    let d ← campoDia fd
    mkData d m y
  | _ => none

/-- One `strptime` attempt for `%m/%d/%Y` (US order). -/
def parseMDY (s : List Char) : Option DataObj :=
  match splitC '/' s with
  | [fm, fd, fy] => do
    let m ← campoMes fm
    let d ← campoDia fd
    let y ← campoAno4 fy
    mkData d m y
  | _ => none

/-- Python-style whitespace-run splitting (a literal blank in a `strptime`
format matches a run of whitespace). -/
def splitWSGo (cur : List Char) : List Char → List (List Char)
  | [] => if cur.isEmpty then [] else [cur.reverse]
  | c :: t =>
    if c.isWhitespace then
      (if cur.isEmpty then splitWSGo [] t else cur.reverse :: splitWSGo [] t)
    else splitWSGo (c :: cur) t

/-- One `strptime` attempt for `%d %m %Y`. -/
def parseDMYespacos (s : List Char) : Option DataObj :=
  match splitWSGo [] s with
  | [fd, fm, fy] => do
    let d ← campoDia fd
    let m ← campoMes fm
    let y ← campoAno4 fy
    mkData d m y
  | _ => none

/-- Month alternatives at the head of `r`, in the order the `strptime`
regex alternation tries them (`1[0-2]`, `0[1-9]`, `[1-9]`), each with the
remaining input. -/
def altsMes (r : List Char) : List (Nat × List Char) :=
  (match r with
   | c0 :: c1 :: t =>
     (if c0 = '1' && ('0' ≤ c1 && c1 ≤ '2') then [(digitsVal [c0, c1], t)] else []) ++
       (if c0 = '0' && ('1' ≤ c1 && c1 ≤ '9') then [(digitsVal [c0, c1], t)] else [])
   | _ => []) ++
    (match r with
     | c0 :: t => if '1' ≤ c0 && c0 ≤ '9' then [(digitsVal [c0], t)] else []
     | _ => [])

/-- Day alternatives at the head of `r`, in regex alternation order
(`3[01]`, `[12]\d`, `0[1-9]`, `[1-9]`). -/
def altsDia (r : List Char) : List (Nat × List Char) :=
  (match r with
   | c0 :: c1 :: t =>
     (if c0 = '3' && (c1 = '0' || c1 = '1') then [(digitsVal [c0, c1], t)] else []) ++
       (if (c0 = '1' || c0 = '2') && c1.isDigit then [(digitsVal [c0, c1], t)] else []) ++
         (if c0 = '0' && ('1' ≤ c1 && c1 ≤ '9') then [(digitsVal [c0, c1], t)] else [])
   | _ => []) ++
    (match r with
     | c0 :: t => if '1' ≤ c0 && c0 ≤ '9' then [(digitsVal [c0], t)] else []
     | _ => [])

/-- One `strptime` attempt for `%Y%m%d`: four year digits, then the first
month/day alternation (with backtracking) that consumes the whole rest;
the date validity check happens only after the regex committed. -/
def parseCompacto (s : List Char) : Option DataObj :=
  let fy := s.take 4
  if allDigits fy && fy.length = 4 then
    match
      firstSome
        (fun md =>
          firstSome (fun dd => if dd.2 = [] then some (md.1, dd.1) else none) (altsDia md.2))
        (altsMes (s.drop 4)) with
    | some (m, d) => mkData d m (digitsVal fy)
    | none => none
  else none

/-- The ordered format list of `normalizar_data`; the first format that
parses wins. -/
def formatosParse (s : List Char) : Option DataObj :=
  firstSome (fun f => f s)
    [parseDMY '/' false, parseDMY '/' true, parseDMY '-' false, parseDMY '-' true,
     parseYMD '-', parseYMD '/', parseDMY '.' false, parseDMY '.' true,
     parseDMYespacos, parseMDY, parseCompacto]

/-- The source's two-digit-century adjustment (`if data_obj.year < 100`):
years below 100 are pushed to 2000s when at most 30 and to 1900s
otherwise. -/
def ajusteSeculo (d : DataObj) : DataObj :=
  if d.ano < 100 then
    if d.ano ≤ 30 then { d with ano := d.ano + 2000 } else { d with ano := d.ano + 1900 }
  else d

/-- Python `strftime('%d/%m/%Y')`. -/
def fmtDataL (d : DataObj) : List Char :=
  pad0 2 d.dia ++ '/' :: (pad0 2 d.mes ++ '/' :: pad0 4 d.ano)

/-- `normalizar_data` of the source. The current date (used for empty or
unrecognized input) is passed explicitly as `hoje`. -/
def normalizar_data (data_str : String) (hoje : DataObj) : String :=
  if data_str = "" then ⟨fmtDataL hoje⟩
  else
    match formatosParse (stripL data_str.data) with
    | some d => ⟨fmtDataL (ajusteSeculo d)⟩
    | none => ⟨fmtDataL hoje⟩

/-- Python `datetime.strptime(s, '%d/%m/%Y')` as the duplicate checker
calls it on already-normalized dates. -/
def parseCanonico (s : String) : Option DataObj := parseDMY '/' false s.data

/-! ## Classifier `identificar_tipo_nota` (source lines 377-387) -/

/-- Python `str.upper()` (ASCII fragment; every marker the classifier
tests is ASCII). -/
def pyToUpper (s : String) : String := ⟨s.data.map Char.toUpper⟩

/-- Python `str.lower()` (ASCII fragment). -/
def pyToLower (s : String) : String := ⟨s.data.map Char.toLower⟩

/-- Python substring containment `pat in s`. -/
def listInfixOf (pat : List Char) : List Char → Bool
  | [] => pat.isEmpty
  | c :: t => pat.isPrefixOf (c :: t) || listInfixOf pat t

/-- Python `sub in s` on `String`. -/
def contemSub (sub s : String) : Bool := listInfixOf sub.data s.data

/-- Tax id of the LDL entity (source constant `CNPJ_LDL`). -/
def CNPJ_LDL : String := "60415819000141"

/-- Tax id of the POP entity (source constant `CNPJ_POP`). -/
def CNPJ_POP : String := "61081232000106"

/-- The fact record `extrair_dados_xml` builds from one invoice document
(the XML parsing itself is an external-library call; the claims consume
the record). -/
structure DadosXML where
  numero_nf : String
  data_emissao : String
  natureza : String
  cnpj_emitente : String
  nome_emitente : String
  cnpj_destinatario : String
  nome_destinatario : String
  valor_produtos : ℚ
  valor_nf : ℚ
  icms : ℚ
  ipi : ℚ
  pisV : ℚ
  cofins : ℚ
  piRef : String
  ii : ℚ
  afrmm : ℚ
  siscomex : ℚ
deriving DecidableEq

/-- The transaction-type strings `identificar_tipo_nota` returns. -/
inductive TipoNota
  | REMESSA
  | IMPORTACAO
  | LDL_PARA_POP
  | POP_PARA_CLIENTE
  | DESCONHECIDO
deriving DecidableEq

/-- `identificar_tipo_nota` of the source: ordered rules, first match
wins. -/
def identificar_tipo_nota (dados : DadosXML) : TipoNota :=
  let natureza := pyToUpper dados.natureza
  if contemSub "REMESSA" natureza then .REMESSA
  else if contemSub "IMPORT" natureza || contemSub "ENTRADA" natureza then .IMPORTACAO
  else if dados.cnpj_emitente = CNPJ_LDL ∧ dados.cnpj_destinatario = CNPJ_POP then .LDL_PARA_POP
  else if dados.cnpj_emitente = CNPJ_POP then .POP_PARA_CLIENTE
  else .DESCONHECIDO

/-! ## Bundle processor `processar_zip_xmls` (source lines 346-375) -/

/-- Suffix test on character lists (`str.endswith`). -/
def endsWithL (suf s : List Char) : Bool := suf.reverse.isPrefixOf s.reverse

/-- The source's entry filter `file_name.lower().endswith('.xml')`. -/
def endsWithXml (nome : String) : Bool := endsWithL ".xml".data (pyToLower nome).data

/-- Aggregate result of `processar_zip_xmls`. -/
structure ZipResultado where
  xmls : List DadosXML
  valor_total : ℚ
  quantidade : Nat
  remessas_ignoradas : Nat
deriving DecidableEq

/-- The entry loop of `processar_zip_xmls`: skip non-XML names, skip
entries whose extraction yields nothing, count and skip return shipments,
accumulate the rest. `extrair` stands for `extrair_dados_xml` (external
XML parsing), `none` being its `None` result. -/
def processaEntradas (extrair : String → Option DadosXML) :
    List (String × String) → ZipResultado → ZipResultado
  | [], acc => acc
  | (nome, conteudo) :: resto, acc =>
    if endsWithXml nome then
      match extrair conteudo with
      | none => processaEntradas extrair resto acc
      | some dados =>
        if identificar_tipo_nota dados = .REMESSA then
          processaEntradas extrair resto
            { acc with remessas_ignoradas := acc.remessas_ignoradas + 1 }
        else
          processaEntradas extrair resto
            { acc with
              xmls := acc.xmls ++ [dados]
              valor_total := acc.valor_total + dados.valor_nf
              quantidade := acc.quantidade + 1 }
    else processaEntradas extrair resto acc

/-- `processar_zip_xmls` of the source. `none` input models an unreadable
archive (the surrounding `try` returns `None`); entries carry their
already-decoded text. -/
def processar_zip_xmls (extrair : String → Option DadosXML) :
    Option (List (String × String)) → Option ZipResultado
  | none => none
  | some entradas => some (processaEntradas extrair entradas ⟨[], 0, 0, 0⟩)

/-- Specification-side accepted list: entries with an XML name whose
extraction succeeds and whose classification is not a return shipment. -/
def zipAceitos (extrair : String → Option DadosXML) (entradas : List (String × String)) :
    List DadosXML :=
  entradas.filterMap fun e =>
    if endsWithXml e.1 then
      (extrair e.2).bind fun d =>
        if identificar_tipo_nota d = .REMESSA then none else some d
    else none

/-- Specification-side count of excluded return shipments. -/
def zipRemessas (extrair : String → Option DadosXML) (entradas : List (String × String)) : Nat :=
  entradas.countP fun e =>
    endsWithXml e.1 &&
      match extrair e.2 with
      | some d => identificar_tipo_nota d = .REMESSA
      | none => false

/-- Sum of the invoice totals of a record list. -/
def somaValores (l : List DadosXML) : ℚ := (l.map (fun d => d.valor_nf)).sum

/-! ## Ledger model and `verificar_xml_duplicado` (source lines 460-492) -/

/-- The spreadsheet as the duplicate checkers see it: each worksheet is
either readable (its full row list, `get_all_values`) or failing
(`none`: missing worksheet, permission or connection error caught by the
per-sheet `except`). -/
structure Planilha where
  importacao : Option (List (List String))
  saida_1 : Option (List (List String))
  saida_2 : Option (List (List String))
  outras_despesas : Option (List (List String))

/-- Details carried by a positive `verificar_xml_duplicado` answer. -/
structure XmlDetalhe where
  numero_nf : String
  linha : Nat
  data : String
deriving DecidableEq

/-- Result of `verificar_xml_duplicado`. -/
inductive XmlDupRes
  | naoDuplicada
  | duplicada (aba : String) (detalhes : XmlDetalhe)
deriving DecidableEq

/-- Python `enumerate(l, start=n)`. -/
def enum2 (start : Nat) : List α → List (Nat × α)
  | [] => []
  | x :: xs => (start, x) :: enum2 (start + 1) xs

/-- The row scan of one worksheet in `verificar_xml_duplicado`: rows after
the header, 1-based sheet indices starting at 2; rows with fewer than two
cells are skipped; the first row whose trimmed invoice-number cell equals
the trimmed candidate ends the scan. -/
def procuraNF (numero_nf : String) (linhas : List (List String)) : Option XmlDetalhe :=
  firstSome
    (fun q =>
      if q.2.isEmpty || q.2.length < 2 then none
      else if pyStrip (q.2.getD 1 "") = pyStrip numero_nf then
        some ⟨numero_nf, q.1, if 2 < q.2.length then q.2.getD 2 "" else "N/A"⟩
      else none)
    (enum2 2 (linhas.drop 1))

/-- `verificar_xml_duplicado` of the source. The unused `cnpj_emitente`
and `valor_nf` parameters are kept for signature fidelity. A failing
connection (`planilha = none`) is the caught top-level exception. -/
def verificar_xml_duplicado (numero_nf _cnpj_emitente : String) (_valor_nf : ℚ)
    (planilha : Option Planilha) : XmlDupRes :=
  match planilha with
  | none => .naoDuplicada
  | some p =>
    match
      firstSome
        (fun ab =>
          match ab.2 with
          | none => none
          | some linhas => (procuraNF numero_nf linhas).map (fun d => (ab.1, d)))
        [("Importacao", p.importacao), ("Saida_1", p.saida_1), ("Saida_2", p.saida_2)] with
    | some r => .duplicada r.1 r.2
    | none => .naoDuplicada

/-- Specification-side first match in one sheet: the first post-header row
with at least two cells whose trimmed invoice-number column equals the
trimmed candidate (trimmed string equality, no numeric coercion). -/
def procuraSpec (numero_nf : String) (linhas : List (List String)) :
    Option (Nat × List String) :=
  (enum2 2 (linhas.drop 1)).find? fun q =>
    2 ≤ q.2.length && pyStrip (q.2.getD 1 "") = pyStrip numero_nf

/-- Specification-side search across the three invoice-bearing sections in
their fixed priority order: the first section hit wins, a failing section
read is passed over, later sections are consulted only when the earlier
ones produced no hit. -/
def buscaSpec (nf : String) (p : Planilha) : Option (String × Nat × List String) :=
  firstSome
    (fun ab =>
      match ab.2 with
      | none => none
      | some linhas => (procuraSpec nf linhas).map fun q => (ab.1, q))
    [("Importacao", p.importacao), ("Saida_1", p.saida_1), ("Saida_2", p.saida_2)]

/-! ## `verificar_valor_duplicado_pi` (source lines 494-598) -/

/-- Row fields a qualifying expense row contributes (before its sheet
index is attached). -/
structure ValorNucleo where
  dataRow : String
  categoriaRow : String
  valorRow : ℚ
  diferenca : ℚ
deriving DecidableEq

/-- Details carried by a positive `verificar_valor_duplicado_pi` answer. -/
structure ValorDetalhe where
  linha : Nat
  dataRow : String
  categoriaRow : String
  valorRow : ℚ
  diferenca : ℚ
deriving DecidableEq

/-- Result of `verificar_valor_duplicado_pi`. -/
inductive ValorDupRes
  | naoDuplicada
  | duplicada (detalhes : ValorDetalhe) (quantidade : Nat)
deriving DecidableEq

/-- The per-row body of the `verificar_valor_duplicado_pi` loop, with its
`continue`s: short rows are skipped, then the trimmed reference-token
comparison, the stored value conversion, the stored date normalization and
parse (parse failure skips the row), the inclusive date window, and the
percent-difference test (skipped divisionless when the candidate value is
not positive). -/
def avaliaLinha (pi : String) (valor : ℚ) (data_obj : DataObj) (dias_margem : Nat)
    (hoje : DataObj) (linha : List String) : Option ValorNucleo :=
  if linha.isEmpty || linha.length < 4 then none
  else
    let pi_planilha := pyStrip (linha.getD 0 "")
    let data_planilha_str := normalizar_data (pyStrip (linha.getD 1 "")) hoje
    let categoria_planilha := if 2 < linha.length then pyStrip (linha.getD 2 "") else ""
    let valor_planilha_str := if 3 < linha.length then pyStrip (linha.getD 3 "") else ""
    if pi_planilha ≠ pyStrip pi then none
    else
      let valor_planilha := converter_valor_para_float valor_planilha_str
      match parseCanonico data_planilha_str with
      | none => none
      | some data_planilha_obj =>
        if ¬ dentroJanela data_obj data_planilha_obj dias_margem then none
        else
          let dif := if 0 < valor then |valor - valor_planilha| / valor * 100 else 0
          if dif ≤ 1 then some ⟨data_planilha_str, categoria_planilha, valor_planilha, dif⟩
          else none

/-- `verificar_valor_duplicado_pi` of the source. The `categoria`
parameter is accepted and unused, as in the source; `dias_margem`
defaults to 100 at call sites. A failing connection or missing
`outras_despesas` sheet returns the not-duplicate answer. -/
def verificar_valor_duplicado_pi (pi : String) (valor : ℚ) (data : String)
    (_categoria : Option String) (dias_margem : Nat) (hoje : DataObj)
    (planilha : Option Planilha) : ValorDupRes :=
  match planilha with
  | none => .naoDuplicada
  | some p =>
    let dataN := normalizar_data data hoje
    match p.outras_despesas with
    | none => .naoDuplicada
    | some todas_linhas =>
      if todas_linhas.length ≤ 1 then .naoDuplicada
      else
        let data_obj := (parseCanonico dataN).getD hoje
        let duplicatas :=
          (enum2 2 (todas_linhas.drop 1)).filterMap fun q =>
            (avaliaLinha pi valor data_obj dias_margem hoje q.2).map fun n =>
              ({ linha := q.1, dataRow := n.dataRow, categoriaRow := n.categoriaRow,
                 valorRow := n.valorRow, diferenca := n.diferenca } : ValorDetalhe)
        match duplicatas with
        | [] => .naoDuplicada
        | d :: _ => .duplicada d duplicatas.length

/-- Filter one of the claim: trimmed reference-token equality. -/
def filtroPi (pi : String) (linha : List String) : Bool :=
  pyStrip (linha.getD 0 "") = pyStrip pi

/-- Filter two of the claim: the stored date (normalized) lies within the
inclusive `dias`-day window around the candidate's normalized date. -/
def filtroJanela (data : String) (hoje : DataObj) (dias : Nat) (linha : List String) : Bool :=
  match parseCanonico (normalizar_data (pyStrip (linha.getD 1 "")) hoje) with
  | some dObj =>
    dentroJanela ((parseCanonico (normalizar_data data hoje)).getD hoje) dObj dias
  | none => false

/-- Filter three of the claim: percent difference relative to the
candidate value is at most one. -/
def filtroValor (valor : ℚ) (linha : List String) : Bool :=
  |valor - converter_valor_para_float (pyStrip (linha.getD 3 ""))| / valor * 100 ≤ 1

/-- A post-header row qualifies when it has the four referenced cells and
passes all three filters. -/
def linhaQualifica (pi : String) (valor : ℚ) (data : String) (hoje : DataObj) (dias : Nat)
    (linha : List String) : Bool :=
  !linha.isEmpty && 4 ≤ linha.length && filtroPi pi linha && filtroJanela data hoje dias linha &&
    filtroValor valor linha

/-- The details the checker reports for a qualifying row. -/
def detalheDe (valor : ℚ) (hoje : DataObj) (q : Nat × List String) : ValorDetalhe :=
  { linha := q.1
    dataRow := normalizar_data (pyStrip (q.2.getD 1 "")) hoje
    categoriaRow := pyStrip (q.2.getD 2 "")
    valorRow := converter_valor_para_float (pyStrip (q.2.getD 3 ""))
    diferenca := |valor - converter_valor_para_float (pyStrip (q.2.getD 3 ""))| / valor * 100 }

/-- Specification-side list of qualifying rows, in sheet order with their
sheet indices. -/
def duplicatasSpec (pi : String) (valor : ℚ) (data : String) (hoje : DataObj) (dias : Nat)
    (linhas : List (List String)) : List ValorDetalhe :=
  (enum2 2 (linhas.drop 1)).filterMap fun q =>
    if linhaQualifica pi valor data hoje dias q.2 then some (detalheDe valor hoje q) else none

/-- Zero-candidate-value qualification: only the token and window filters
remain (the percent test degenerates without any division). -/
def linhaQualificaSemValor (pi : String) (data : String) (hoje : DataObj) (dias : Nat)
    (linha : List String) : Bool :=
  !linha.isEmpty && 4 ≤ linha.length && filtroPi pi linha && filtroJanela data hoje dias linha

/-- Qualifying rows of a zero-value candidate, with zero reported
difference. -/
def duplicatasSemValor (pi : String) (data : String) (hoje : DataObj) (dias : Nat)
    (linhas : List (List String)) : List ValorDetalhe :=
  (enum2 2 (linhas.drop 1)).filterMap fun q =>
    if linhaQualificaSemValor pi data hoje dias q.2 then
      some
        { linha := q.1
          dataRow := normalizar_data (pyStrip (q.2.getD 1 "")) hoje
          categoriaRow := pyStrip (q.2.getD 2 "")
          valorRow := converter_valor_para_float (pyStrip (q.2.getD 3 ""))
          diferenca := 0 }
    else none

/-! ## Regexes of `extrair_valores_texto` (source lines 224-250)

A small backtracking matcher with Python `re` semantics on the constructs
the five patterns use: character classes, concatenation, ordered
alternation, greedy star (with greedy option and bounded repetition
derived from them). Fuel only bounds the recursion depth; it is chosen
large enough that the semantics never hits it on the pattern shapes below
(their starred bodies always consume input). -/

/-- Regular-expression syntax used by the five receipt patterns. -/
inductive RE
  | eps
  | cls (p : Char → Bool)
  | cat (a b : RE)
  | alt (a b : RE)
  | star (a : RE)

/-- Backtracking matcher in continuation style: try to match `r` against a
prefix of `s` and call `k` on the rest, backtracking (alternation order,
greedy star) until `k` succeeds. -/
def reM : Nat → RE → List Char → (List Char → Option α) → Option α
  | 0, _, _, _ => none
  | _ + 1, .eps, s, k => k s
  | _ + 1, .cls _, [], _ => none
  | _ + 1, .cls p, c :: cs, k => if p c then k cs else none
  | f + 1, .cat a b, s, k => reM f a s (fun s2 => reM f b s2 k)
  | f + 1, .alt a b, s, k =>
    match reM f a s k with
    | some r => some r
    | none => reM f b s k
  | f + 1, .star a, s, k =>
    match reM f a s (fun s2 => if s2.length < s.length then reM f (.star a) s2 k else none) with
    | some r => some r
    | none => k s

/-- Sequence of regexes. -/
def reSeq : List RE → RE
  | [] => .eps
  | [r] => r
  | r :: rs => .cat r (reSeq rs)

/-- Ordered alternation of regexes. -/
def reAlts : List RE → RE
  | [] => .cls (fun _ => false)
  | [r] => r
  | r :: rs => .alt r (reAlts rs)

/-- One character, case-insensitively (`re.IGNORECASE` is passed to every
`findall`). -/
def chCI (c : Char) : RE := .cls (fun x => x.toLower = c.toLower)

/-- A literal word, case-insensitively. -/
def litCI (w : String) : RE := reSeq (w.data.map chCI)

/-- Class `\d` (ASCII fragment). -/
def reDigit : RE := .cls Char.isDigit

/-- Class `[.,]`. -/
def reSepPV : RE := .cls (fun c => c = '.' || c = ',')

/-- Literal `\.`. -/
def rePonto : RE := .cls (fun c => c = '.')

/-- Literal `,`. -/
def reVirg : RE := .cls (fun c => c = ',')

/-- Class `\s`. -/
def reEspaco : RE := .cls Char.isWhitespace

/-- One or more repetitions (greedy `+`). -/
def rePlus (r : RE) : RE := .cat r (.star r)

/-- Optional occurrence (greedy `?`). -/
def reOpt (r : RE) : RE := .alt r .eps

/-- Greedy `\d{1,3}`: three, else two, else one digit. -/
def reD13 : RE := reAlts [reSeq [reDigit, reDigit, reDigit], reSeq [reDigit, reDigit], reDigit]

/-- The captured number shape `\d{1,3}(?:[.,]\d{3})*[.,]\d{2}`. -/
def numAny : RE :=
  reSeq [reD13, .star (reSeq [reSepPV, reDigit, reDigit, reDigit]), reSepPV, reDigit, reDigit]

/-- The captured number shape `\d{1,3}(?:\.\d{3})*,\d{2}`. -/
def numBR : RE :=
  reSeq [reD13, .star (reSeq [rePonto, reDigit, reDigit, reDigit]), reVirg, reDigit, reDigit]

/-- The captured number shape `\d{1,3}(?:,\d{3})*\.\d{2}`. -/
def numUS : RE :=
  reSeq [reD13, .star (reSeq [reVirg, reDigit, reDigit, reDigit]), rePonto, reDigit, reDigit]

/-- One source pattern: an uncaptured prefix followed by the single
capture group, which every one of the five patterns ends with. -/
structure Padrao where
  pre : RE
  corpo : RE

/-- Pattern 1: labeled totals. The label alternation of the source lists
both case variants of each word; under `IGNORECASE` the variants denote
the same matcher, so the list collapses to one entry per word in the same
order. -/
def padrao1 : Padrao :=
  ⟨reSeq
      [reAlts [litCI "TOTAL", litCI "VALUE", litCI "VALOR", litCI "BRL"],
        rePlus (.cls (fun c => c = ':' || c.isWhitespace)),
        reOpt (reSeq [litCI "BRL", rePlus reEspaco])],
    numAny⟩

/-- Pattern 2: `R$`-prefixed Brazilian-formatted amounts. -/
def padrao2 : Padrao := ⟨reSeq [chCI 'R', .cls (fun c => c = '$'), .star reEspaco], numBR⟩

/-- Pattern 3: currency-coded amounts. -/
def padrao3 : Padrao := ⟨reSeq [reAlts [litCI "BRL", litCI "USD"], rePlus reEspaco], numAny⟩

/-- Pattern 4: bare Brazilian-formatted decimals. -/
def padrao4 : Padrao := ⟨.eps, numBR⟩

/-- Pattern 5: bare US-formatted decimals. -/
def padrao5 : Padrao := ⟨.eps, numUS⟩

/-- Fuel bound for the matcher: generous multiple of the input length. -/
def combustivel (s : List Char) : Nat := (s.length + 2) * 200

/-- Try a pattern at the start of `s`; on success return the capture (what
the capture group consumed) and the rest of the input after the match. -/
def matchAt (pad : Padrao) (s : List Char) : Option (List Char × List Char) :=
  reM (combustivel s) pad.pre s fun r =>
    reM (combustivel s) pad.corpo r fun r2 => some (r.take (r.length - r2.length), r2)

/-- Scan for non-overlapping matches left to right (`re.findall`
semantics; the guard against empty matches is unreachable for these
patterns, whose capture consumes at least three characters). -/
def acha : Nat → Padrao → List Char → List (List Char)
  | 0, _, _ => []
  | f + 1, pad, s =>
    match matchAt pad s with
    | some (cap, resto) =>
      if resto.length < s.length then cap :: acha f pad resto
      else
        match s with
        | [] => []
        | _ :: t => acha f pad t
    | none =>
      match s with
      | [] => []
      | _ :: t => acha f pad t

/-- `re.findall(pattern, texto, re.IGNORECASE)` returning the capture
group of each match. -/
def findAllPadrao (pad : Padrao) (s : List Char) : List (List Char) :=
  acha (s.length + 1) pad s

/-- The five patterns in source order. -/
def padroes : List Padrao := [padrao1, padrao2, padrao3, padrao4, padrao5]

/-- All captures of all five patterns, pattern by pattern (the `valores`
list of the source). -/
def todasCapturas (texto : List Char) : List (List Char) :=
  (padroes.map fun p => findAllPadrao p texto).flatten

/-- The inline separator cleanup of the conversion loop in
`extrair_valores_texto` (it differs from `converter_valor_para_float`:
the comma-only case keys on the last comma-separated part and replaces
every comma). -/
def limpaValor (v : List Char) : List Char :=
  if containsC ',' v && containsC '.' v then
    if rfindC '.' v < rfindC ',' v then trocaChar ',' '.' (removeChar '.' v)
    else removeChar ',' v
  else if containsC ',' v then
    if ((splitC ',' v).getLastD []).length = 2 then trocaChar ',' '.' (removeChar '.' v)
    else removeChar ',' v
  else v

/-- One capture converted to a number; `none` models the caught
`ValueError` (`continue`). -/
def convInline (v : List Char) : Option ℚ := parseFloatL (limpaValor v)

/-- The collection loop: keep positive values not already collected. -/
def coletaPositivos : List (List Char) → List ℚ → List ℚ
  | [], acc => acc
  | v :: vs, acc =>
    match convInline v with
    | none => coletaPositivos vs acc
    | some x =>
      if 0 < x ∧ x ∉ acc then coletaPositivos vs (acc ++ [x])
      else coletaPositivos vs acc

/-- Greater-or-equal as the descending sort order. -/
def relGE (a b : ℚ) : Prop := b ≤ a

instance : DecidableRel relGE := fun a b => inferInstanceAs (Decidable (b ≤ a))

instance : IsTotal ℚ relGE := ⟨fun a b => le_total b a⟩

instance : IsTrans ℚ relGE := ⟨fun _ _ _ h1 h2 => le_trans h2 h1⟩

/-- Python `sorted(list(set(l)), reverse=True)` on an already-deduplicated
list: its descending ordering. -/
def ordenaDesc (l : List ℚ) : List ℚ := List.insertionSort relGE l

/-- `extrair_valores_texto` of the source. -/
def extrair_valores_texto (texto : String) : List ℚ :=
  ordenaDesc (coletaPositivos (todasCapturas texto.data) [])

/-! ## Locale renderings for the round-trip claim

There is no formatting function in the source; these render a non-negative
amount with at most two fractional digits (given as integer part `n` and
cent part `c < 100`) the way the specification describes the two locale
formats: thousands separators every three digits and a two-digit decimal
part. -/

/-- Chunks of three, least significant first, with explicit fuel. -/
def pedacos3Go : Nat → List Char → List (List Char)
  | 0, _ => []
  | _ + 1, [] => []
  | f + 1, x :: xs => ((x :: xs).take 3) :: pedacos3Go f ((x :: xs).drop 3)

/-- Chunks of three of a list. -/
def pedacos3 (l : List Char) : List (List Char) := pedacos3Go l.length l

/-- Join chunks with a separator between them. -/
def juntaSep (sep : Char) : List (List Char) → List Char
  | [] => []
  | [c] => c
  | c :: cs => c ++ sep :: juntaSep sep cs

/-- Digit string with a thousands separator every three digits. -/
def agrupa3 (sep : Char) (ds : List Char) : List Char :=
  (juntaSep sep (pedacos3 ds.reverse)).reverse

/-- Two-digit cent rendering. -/
def doisDig (c : Nat) : List Char := [digitChar10 (c / 10), digitChar10 (c % 10)]

/-- US rendering of `n + c/100`: comma groups, dot decimal. -/
def format_us_lista (n c : Nat) : List Char :=
  agrupa3 ',' (charDigits n) ++ '.' :: doisDig c

/-- Brazilian rendering of `n + c/100`: dot groups, comma decimal. -/
def format_brasileiro_lista (n c : Nat) : List Char :=
  agrupa3 '.' (charDigits n) ++ ',' :: doisDig c

/-- US rendering as a `String`. -/
def format_us (n c : Nat) : String := ⟨format_us_lista n c⟩

/-- Brazilian rendering as a `String`. -/
def format_brasileiro (n c : Nat) : String := ⟨format_brasileiro_lista n c⟩

/-! ## Concrete fixtures used by the claim theorems -/

/-- A ledger with one import row (invoice number `007`) and one free-form
expense row (`ABC1234567`, `01/03/2024`, value `1000.00`). -/
def planilhaExemplo : Planilha :=
  { importacao := some [["PI", "NF", "Data"], ["ABC1234567", "007", "01/01/2024"]]
    saida_1 := some [["PI", "NF", "Data"]]
    saida_2 := some [["PI", "NF", "Data"]]
    outras_despesas :=
      some
        [["PI", "Data", "Categoria", "Valor", "Descricao", "Observacao"],
          ["ABC1234567", "01/03/2024", "Frete", "1000.00", "Frete", ""]] }

/-- A fixed current date for the examples. -/
def hoje0 : DataObj := ⟨15, 3, 2024⟩

/-- A sale-typed invoice record of total `v`. -/
def dadosVenda (v : ℚ) : DadosXML :=
  ⟨"1", "01/01/2024", "VENDA DE MERCADORIA", CNPJ_POP, "POP", "123", "CL",
    0, v, 0, 0, 0, 0, "N/A", 0, 0, 0⟩

/-- A return-shipment invoice record. -/
def dadosRemessa : DadosXML := { dadosVenda 50 with natureza := "REMESSA PARA CONSERTO" }

/-- A three-entry extraction table for the bundle example. -/
def extrairExemplo : String → Option DadosXML := fun c =>
  if c = "A" then some (dadosVenda 100)
  else if c = "B" then some dadosRemessa
  else if c = "C" then some (dadosVenda 200)
  else none

/-- A ledger whose every worksheet read fails. -/
def planilhaFalha : Planilha := ⟨none, none, none, none⟩

/-- A return-shipment record whose parties are exactly the
internal-transfer identity pair. -/
def dadosRemessaIdent : DadosXML :=
  { dadosVenda 10 with
    natureza := "Remessa simbolica"
    cnpj_emitente := CNPJ_LDL
    cnpj_destinatario := CNPJ_POP }

/-- An import-flagged record whose parties are exactly the
internal-transfer identity pair. -/
def dadosImportIdent : DadosXML :=
  { dadosVenda 10 with
    natureza := "Importacao por conta propria"
    cnpj_emitente := CNPJ_LDL
    cnpj_destinatario := CNPJ_POP }

/-! ## Helper lemmas on the string primitives -/

theorem mem_dropWhileWS {x : Char} (hx : x.isWhitespace = false) :
    ∀ {s : List Char}, x ∈ s → x ∈ s.dropWhile Char.isWhitespace := by
  intro s h
  induction s with
  | nil => cases h
  | cons c t ih =>
    rw [List.dropWhile_cons]
    by_cases hc : c.isWhitespace = true
    · simp only [hc, if_true]
      rcases List.mem_cons.mp h with rfl | ht
      · rw [hx] at hc; cases hc
      · exact ih ht
    · simp only [hc, if_false]
      exact h

theorem mem_stripL {x : Char} {s : List Char} (hx : x.isWhitespace = false) (h : x ∈ s) :
    x ∈ stripL s := by
  unfold stripL
  rw [List.mem_reverse]
  apply mem_dropWhileWS hx
  rw [List.mem_reverse]
  exact mem_dropWhileWS hx h

theorem allDigits_mem {s : List Char} (h : allDigits s = true) {x : Char} (hm : x ∈ s) :
    x.isDigit = true := by
  unfold allDigits at h
  exact List.all_eq_true.mp h x hm

theorem splitC_ne_nil (sep : Char) : ∀ r : List Char, splitC sep r ≠ [] := by
  intro r
  induction r with
  | nil => simp [splitC]
  | cons c t ih =>
    unfold splitC
    by_cases hc : c = sep
    · simp [hc]
    · simp only [hc, if_false]
      rcases hs : splitC sep t with _ | ⟨h1, t1⟩
      · simp
      · simp

theorem mem_splitC {x sep : Char} (hx : x ≠ sep) :
    ∀ {r : List Char}, x ∈ r → ∃ p, p ∈ splitC sep r ∧ x ∈ p := by
  intro r h
  induction r with
  | nil => cases h
  | cons c t ih =>
    unfold splitC
    rcases List.mem_cons.mp h with rfl | ht
    · simp only [hx, if_false]
      rcases hs : splitC sep t with _ | ⟨h1, t1⟩
      · exact absurd hs (splitC_ne_nil sep t)
      · exact ⟨x :: h1, List.mem_cons_self _ _, List.mem_cons_self _ _⟩
    · rcases ih ht with ⟨p, hp, hxp⟩
      by_cases hc : c = sep
      · simp only [hc, if_true]
        exact ⟨p, List.mem_cons_of_mem _ hp, hxp⟩
      · simp only [hc, if_false]
        rcases hs : splitC sep t with _ | ⟨h1, t1⟩
        · exact absurd hs (splitC_ne_nil sep t)
        · rw [hs] at hp
          rcases List.mem_cons.mp hp with rfl | hp2
          · exact ⟨c :: p, List.mem_cons_self _ _, List.mem_cons_of_mem _ hxp⟩
          · exact ⟨p, List.mem_cons_of_mem _ hp2, hxp⟩

theorem parseFloatCore_none_of_comma {neg : Bool} {r : List Char} (h : ',' ∈ r) :
    parseFloatCore neg r = none := by
  have hcd : (',' : Char) ≠ '.' := by decide
  rcases mem_splitC hcd h with ⟨p, hp, hxp⟩
  have hnd : allDigits p = false := by
    by_contra hcon
    have := allDigits_mem (Bool.of_not_eq_false hcon) hxp
    simp [Char.isDigit] at this
  unfold parseFloatCore
  split
  next a heq =>
    rw [heq] at hp
    simp only [List.mem_singleton] at hp
    rw [if_neg]
    intro hcon
    have hf : allDigits a = false := hp ▸ hnd
    rw [hcon.2] at hf
    cases hf
  next a b heq =>
    rw [heq] at hp
    rw [if_neg]
    intro hcon
    rcases List.mem_cons.mp hp with hp1 | hp2
    · have hf : allDigits a = false := hp1 ▸ hnd
      rw [hcon.2.1] at hf
      cases hf
    · simp only [List.mem_singleton] at hp2
      have hf : allDigits b = false := hp2 ▸ hnd
      rw [hcon.2.2] at hf
      cases hf
  rfl

theorem parseFloatL_none_of_comma {s0 : List Char} (h : ',' ∈ s0) : parseFloatL s0 = none := by
  have h1 : ',' ∈ stripL s0 := mem_stripL (by decide) h
  unfold parseFloatL
  apply parseFloatCore_none_of_comma
  by_cases hh : (stripL s0).headD ' ' = '+' ∨ (stripL s0).headD ' ' = '-'
  · rw [if_pos hh]
    rcases hs : stripL s0 with _ | ⟨c, t⟩
    · rw [hs] at h1; cases h1
    · rw [hs] at h1 hh
      rcases List.mem_cons.mp h1 with rfl | ht
      · simp only [List.headD_cons] at hh
        rcases hh with hc | hc <;> simp at hc
      · simpa using ht
  · rw [if_neg hh]
    exact h1

theorem mem_of_countC_pos {c : Char} : ∀ {s : List Char}, 0 < countC c s → c ∈ s := by
  intro s h
  induction s with
  | nil => simp [countC] at h
  | cons x t ih =>
    unfold countC at h
    by_cases hx : x = c
    · subst hx; exact List.mem_cons_self _ _
    · simp only [hx, if_false, Nat.zero_add] at h
      exact List.mem_cons_of_mem _ (ih h)

theorem containsC_true_of_mem {c : Char} {s : List Char} (h : c ∈ s) : containsC c s = true := by
  unfold containsC
  rw [List.any_eq_true]
  exact ⟨c, h, by simp⟩

/-! ## Claim C10: both duplicate checks fail closed -/

/-- Claim C10: both duplicate-check functions are total in the embedding
and, on an unavailable ledger connection or a failing section read
(including a missing expense worksheet), return the not-duplicate answer,
indistinguishable from a genuine miss. -/
theorem claim_C10_duplicate_checks_fail_closed :
    (∀ nf ce v, verificar_xml_duplicado nf ce v none = .naoDuplicada) ∧
      (∀ pi valor data cat dias hoje,
          verificar_valor_duplicado_pi pi valor data cat dias hoje none = .naoDuplicada) ∧
        (∀ pi valor data cat dias hoje p, p.outras_despesas = none →
            verificar_valor_duplicado_pi pi valor data cat dias hoje (some p) = .naoDuplicada) ∧
          (∀ nf ce v p, p.importacao = none → p.saida_1 = none → p.saida_2 = none →
              verificar_xml_duplicado nf ce v (some p) = .naoDuplicada) := by
  refine ⟨fun _ _ _ => rfl, fun _ _ _ _ _ _ => rfl, ?_, ?_⟩
  · intro pi valor data cat dias hoje p h
    simp [verificar_valor_duplicado_pi, h]
  · intro nf ce v p h1 h2 h3
    simp [verificar_xml_duplicado, firstSome, h1, h2, h3]

/-- Witness for claim C10 at concrete failing ledgers. -/
theorem claim_C10_witness :
    planilhaFalha.outras_despesas = none ∧
      verificar_xml_duplicado "1" "" 0 none = .naoDuplicada ∧
        verificar_valor_duplicado_pi "P" 1 "01/01/2024" none 100 hoje0 none = .naoDuplicada ∧
          verificar_valor_duplicado_pi "P" 1 "01/01/2024" none 100 hoje0 (some planilhaFalha) =
              .naoDuplicada ∧
            verificar_xml_duplicado "1" "" 0 (some planilhaFalha) = .naoDuplicada :=
  ⟨rfl, claim_C10_duplicate_checks_fail_closed.1 "1" "" 0,
    claim_C10_duplicate_checks_fail_closed.2.1 "P" 1 "01/01/2024" none 100 hoje0,
    claim_C10_duplicate_checks_fail_closed.2.2.1 "P" 1 "01/01/2024" none 100 hoje0
      planilhaFalha rfl,
    claim_C10_duplicate_checks_fail_closed.2.2.2 "1" "" 0 planilhaFalha rfl rfl rfl⟩

/-! ## Claim C5: classifier rule order -/

/-- Claim C5: `identificar_tipo_nota` applies its rules in order with first
match winning: a `REMESSA` marker in the operation nature classifies as
return shipment regardless of the identity rules, and an `IMPORT` or
`ENTRADA` marker without a `REMESSA` marker classifies as import even when
the identity pair would match a later rule. -/
theorem claim_C5_classifier_rule_order :
    (∀ dados : DadosXML, contemSub "REMESSA" (pyToUpper dados.natureza) = true →
        identificar_tipo_nota dados = .REMESSA) ∧
      ∀ dados : DadosXML, contemSub "REMESSA" (pyToUpper dados.natureza) = false →
          (contemSub "IMPORT" (pyToUpper dados.natureza) ||
              contemSub "ENTRADA" (pyToUpper dados.natureza)) = true →
            identificar_tipo_nota dados = .IMPORTACAO := by
  constructor
  · intro dados h
    simp [identificar_tipo_nota, h]
  · intro dados h1 h2
    simp [identificar_tipo_nota, h1, h2]

/-- Witness for claim C5: the markers override the identity pair on
concrete records. -/
theorem claim_C5_witness :
    contemSub "REMESSA" (pyToUpper dadosRemessaIdent.natureza) = true ∧
      dadosRemessaIdent.cnpj_emitente = CNPJ_LDL ∧
        dadosRemessaIdent.cnpj_destinatario = CNPJ_POP ∧
          identificar_tipo_nota dadosRemessaIdent = .REMESSA ∧
            identificar_tipo_nota dadosImportIdent = .IMPORTACAO :=
  ⟨by decide, rfl, rfl, claim_C5_classifier_rule_order.1 dadosRemessaIdent (by decide),
    claim_C5_classifier_rule_order.2 dadosImportIdent (by decide) (by decide)⟩

/-! ## Claim C3: two-digit-year expansion (code bug) -/

/-- Claim C3 is contradicted by the code: `strptime`'s own POSIX pivot
(68/69) expands the two-digit year before the source's 30/31 adjustment
can run, so that adjustment is dead for two-digit-year inputs; the claimed
result `15/10/1945` differs from the computed `15/10/2045` (the claimed
pivot agrees with the code only outside 31-68). -/
theorem claim_C3_two_digit_year_expansion :
    normalizar_data "15/10/45" hoje0 = "15/10/2045" ∧
      normalizar_data "15/10/25" hoje0 = "15/10/2025" ∧
        normalizar_data "15/10/69" hoje0 = "15/10/1969" ∧
          ("15/10/2045" : String) ≠ "15/10/1945" := by decide

/-! ## Claim C2: comma-only disambiguation -/

/-- Counterexample to claim C2: the multi-comma string `1,234,567` is not
thousands-stripped; it reaches `float()` unchanged, fails, and yields the
`0.0` fallback instead of the claimed `1234567.0`. -/
theorem claim_C2_counterexample_multi_comma :
    converter_valor_para_float "1,234,567" = 0 ∧ (0 : ℚ) ≠ 1234567 := by decide

/-- Claim C2 as amended: with only commas present, a unique comma with two
trailing digits is decimal and a unique comma otherwise is a removed
thousands separator, but two or more commas leave the string untouched so
the final parse fails and the result is the `0.0` fallback. -/
theorem claim_C2_comma_disambiguation_amended :
    (∀ s : String, 2 ≤ countC ',' (stripL (removeRS (stripL s.data))) →
        containsC '.' (stripL (removeRS (stripL s.data))) = false →
          converter_valor_para_float s = 0) ∧
      converter_valor_para_float "1234,56" = 1234.56 ∧
        converter_valor_para_float "1,234" = 1234 ∧
          converter_valor_para_float "1,234,567" = 0 := by
  refine ⟨?_, by decide, by decide, by decide⟩
  intro s h2 hdot
  unfold converter_valor_para_float convL
  by_cases hnil : s.data = []
  · rw [if_pos hnil]
  · rw [if_neg hnil]
    have hmem : ',' ∈ stripL (removeRS (stripL s.data)) :=
      mem_of_countC_pos (lt_of_lt_of_le (by norm_num) h2)
    have hcont : containsC ',' (stripL (removeRS (stripL s.data))) = true :=
      containsC_true_of_mem hmem
    have hcnt : ¬ countC ',' (stripL (removeRS (stripL s.data))) = 1 := by omega
    simp only [hcont, hdot, Bool.and_false, Bool.true_and, if_false, hcnt, if_true]
    rw [parseFloatL_none_of_comma hmem]
    rfl

/-- Witness for claim C2 at the multi-comma input. -/
theorem claim_C2_amended_witness :
    2 ≤ countC ',' (stripL (removeRS (stripL ("1,234,567" : String).data))) ∧
      converter_valor_para_float "1,234,567" = 0 :=
  ⟨by decide, claim_C2_comma_disambiguation_amended.1 "1,234,567" (by decide) (by decide)⟩

/-! ## Claim C6: bundle aggregation -/

theorem processaEntradas_spec (extrair : String → Option DadosXML) :
    ∀ (entradas : List (String × String)) (acc : ZipResultado),
      processaEntradas extrair entradas acc =
        { xmls := acc.xmls ++ zipAceitos extrair entradas
          valor_total := acc.valor_total + somaValores (zipAceitos extrair entradas)
          quantidade := acc.quantidade + (zipAceitos extrair entradas).length
          remessas_ignoradas := acc.remessas_ignoradas + zipRemessas extrair entradas } := by
  intro entradas
  induction entradas with
  | nil =>
    intro acc
    simp [processaEntradas, zipAceitos, zipRemessas, somaValores]
  | cons e resto ih =>
    intro acc
    obtain ⟨nome, conteudo⟩ := e
    by_cases hx : endsWithXml nome = true
    · cases hex : extrair conteudo with
      | none =>
        simp only [processaEntradas, hx, if_true, hex, ih, zipAceitos, zipRemessas,
          List.filterMap_cons, List.countP_cons]
        simp [hex, hx]
      | some dados =>
        by_cases ht : identificar_tipo_nota dados = TipoNota.REMESSA
        · simp only [processaEntradas, hx, if_true, hex, ht, if_true, ih, zipAceitos,
            zipRemessas, List.filterMap_cons, List.countP_cons, ZipResultado.mk.injEq]
          simp only [hex, hx, ht, Option.some_bind, if_true, Bool.true_and]
          simp [zipRemessas, zipAceitos]
          omega
        · simp only [processaEntradas, hx, if_true, hex, ht, if_false, ih, zipAceitos,
            zipRemessas, List.filterMap_cons, List.countP_cons, ZipResultado.mk.injEq]
          simp only [hex, hx, ht, Option.some_bind, if_false, Bool.true_and]
          simp [zipAceitos, zipRemessas, somaValores, ht]
          constructor
          · ring
          · omega
    · have hx2 : endsWithXml nome = false := by
        cases hv : endsWithXml nome
        · rfl
        · exact absurd hv hx
      simp only [processaEntradas, hx2, Bool.false_eq_true, if_false, ih, zipAceitos,
        zipRemessas, List.filterMap_cons, List.countP_cons]
      simp [hx2, zipAceitos, zipRemessas]

/-- Claim C6: the bundle processor visits exactly the XML-named entries of
a readable archive, skips failed extractions, counts and excludes return
shipments without aborting, and reports the accepted count and the sum of
the accepted invoice totals; on the concrete three-invoice archive with
one return shipment it reports two accepted invoices totalling the two
non-excluded values and one ignored shipment. -/
theorem claim_C6_bundle_aggregation :
    (∀ (extrair : String → Option DadosXML) (entradas : List (String × String)),
        processar_zip_xmls extrair (some entradas) =
          some
            { xmls := zipAceitos extrair entradas
              valor_total := somaValores (zipAceitos extrair entradas)
              quantidade := (zipAceitos extrair entradas).length
              remessas_ignoradas := zipRemessas extrair entradas }) ∧
      processar_zip_xmls extrairExemplo (some [("a.xml", "A"), ("b.xml", "B"), ("c.xml", "C")]) =
          some ⟨[dadosVenda 100, dadosVenda 200], 300, 2, 1⟩ ∧
        zipAceitos extrairExemplo [("a.xml", "A"), ("b.xml", "B"), ("c.xml", "C")] =
            [dadosVenda 100, dadosVenda 200] ∧
          zipRemessas extrairExemplo [("a.xml", "A"), ("b.xml", "B"), ("c.xml", "C")] = 1 ∧
            somaValores [dadosVenda 100, dadosVenda 200] = 300 := by
  refine ⟨?_, by decide, by decide, by decide, by decide⟩
  intro extrair entradas
  simp [processar_zip_xmls, processaEntradas_spec]

/-! ## Claims C1 and C4: expense tolerance matching -/

theorem avaliaLinha_eq (pi : String) (valor : ℚ) (data : String) (hoje : DataObj) (dias : Nat)
    (hv : 0 < valor) (q : Nat × List String) :
    (avaliaLinha pi valor ((parseCanonico (normalizar_data data hoje)).getD hoje) dias hoje
          q.2).map
        (fun n =>
          ({ linha := q.1, dataRow := n.dataRow, categoriaRow := n.categoriaRow,
             valorRow := n.valorRow, diferenca := n.diferenca } : ValorDetalhe)) =
      if linhaQualifica pi valor data hoje dias q.2 then some (detalheDe valor hoje q)
      else none := by
  obtain ⟨i, linha⟩ := q
  simp only [avaliaLinha, linhaQualifica, filtroPi, filtroJanela, filtroValor, detalheDe]
  by_cases h1 : linha.isEmpty = true
  · simp [h1]
  · simp only [h1]
    by_cases h2 : linha.length < 4
    · have h2b : ¬ 4 ≤ linha.length := by omega
      simp [h2, h2b, h1]
    · have h4 : 4 ≤ linha.length := by omega
      have h5 : 2 < linha.length := by omega
      have h6 : 3 < linha.length := by omega
      by_cases h3 : pyStrip (linha[0]?.getD "") = pyStrip pi
      · cases hp : parseCanonico (normalizar_data (pyStrip (linha.getD 1 "")) hoje) with
        | none => simp [h1, h2, h3, h4, hp]
        | some dObj =>
          by_cases hj :
              dentroJanela ((parseCanonico (normalizar_data data hoje)).getD hoje) dObj dias =
                true
          · by_cases hd :
                |valor - converter_valor_para_float (pyStrip linha[3])| / valor * 100 ≤ 1
            · simp [h1, h2, h3, h4, h5, h6, hp, hj, hv, hd]
            · simp [h1, h2, h3, h4, h5, h6, hp, hj, hv, hd]
          · simp [h1, h2, h3, h4, hp, hj]
      · simp [h1, h2, h3, h4]

theorem drop_one_nil_of_len_le {l : List (List String)} (h : l.length ≤ 1) : l.drop 1 = [] := by
  cases l with
  | nil => rfl
  | cons a t =>
    cases t with
    | nil => rfl
    | cons b u => simp at h

/-- Claim C1: for a positive candidate value, `verificar_valor_duplicado_pi`
reports exactly the rows passing the three filters (trimmed-token equality,
inclusive 100-day window around the normalized dates, percent difference at
most one relative to the candidate), surfacing the first qualifying row
with the total count; the concrete 0.5 percent / 9-day candidate is
reported duplicate and the 20 percent candidate is not. -/
theorem claim_C1_expense_duplicate_filters :
    (∀ pi valor data cat dias hoje p linhas, 0 < valor →
        p.outras_despesas = some linhas →
          verificar_valor_duplicado_pi pi valor data cat dias hoje (some p) =
            match duplicatasSpec pi valor data hoje dias linhas with
            | [] => ValorDupRes.naoDuplicada
            | d :: _ =>
              ValorDupRes.duplicada d (duplicatasSpec pi valor data hoje dias linhas).length) ∧
      verificar_valor_duplicado_pi "ABC1234567" 1005 "10/03/2024" none 100 hoje0
          (some planilhaExemplo) =
        ValorDupRes.duplicada ⟨2, "01/03/2024", "Frete", 1000, 100 / 201⟩ 1 ∧
      verificar_valor_duplicado_pi "ABC1234567" 1200 "10/03/2024" none 100 hoje0
          (some planilhaExemplo) = ValorDupRes.naoDuplicada := by
  refine ⟨?_, by decide, by decide⟩
  intro pi valor data cat dias hoje p linhas hv hout
  simp only [verificar_valor_duplicado_pi, hout]
  by_cases hlen : linhas.length ≤ 1
  · have hdrop := drop_one_nil_of_len_le hlen
    simp [hlen, duplicatasSpec, hdrop, enum2]
  · simp only [hlen, if_false]
    unfold duplicatasSpec
    rw [List.filterMap_congr fun q _ => avaliaLinha_eq pi valor data hoje dias hv q]

/-- Witness for claim C1 at the concrete 0.5 percent candidate. -/
theorem claim_C1_witness :
    (0 : ℚ) < 1005 ∧
      planilhaExemplo.outras_despesas =
          some
            [["PI", "Data", "Categoria", "Valor", "Descricao", "Observacao"],
              ["ABC1234567", "01/03/2024", "Frete", "1000.00", "Frete", ""]] ∧
        verificar_valor_duplicado_pi "ABC1234567" 1005 "10/03/2024" none 100 hoje0
            (some planilhaExemplo) =
          match
            duplicatasSpec "ABC1234567" 1005 "10/03/2024" hoje0 100
              [["PI", "Data", "Categoria", "Valor", "Descricao", "Observacao"],
                ["ABC1234567", "01/03/2024", "Frete", "1000.00", "Frete", ""]] with
          | [] => ValorDupRes.naoDuplicada
          | d :: _ =>
            ValorDupRes.duplicada d
              (duplicatasSpec "ABC1234567" 1005 "10/03/2024" hoje0 100
                  [["PI", "Data", "Categoria", "Valor", "Descricao", "Observacao"],
                    ["ABC1234567", "01/03/2024", "Frete", "1000.00", "Frete", ""]]).length :=
  ⟨by decide, rfl,
    claim_C1_expense_duplicate_filters.1 "ABC1234567" 1005 "10/03/2024" none 100 hoje0
      planilhaExemplo _ (by decide) rfl⟩

theorem avaliaLinhaZero_eq (pi : String) (data : String) (hoje : DataObj) (dias : Nat)
    (q : Nat × List String) :
    (avaliaLinha pi 0 ((parseCanonico (normalizar_data data hoje)).getD hoje) dias hoje
          q.2).map
        (fun n =>
          ({ linha := q.1, dataRow := n.dataRow, categoriaRow := n.categoriaRow,
             valorRow := n.valorRow, diferenca := n.diferenca } : ValorDetalhe)) =
      if linhaQualificaSemValor pi data hoje dias q.2 then
        some
          { linha := q.1
            dataRow := normalizar_data (pyStrip (q.2.getD 1 "")) hoje
            categoriaRow := pyStrip (q.2.getD 2 "")
            valorRow := converter_valor_para_float (pyStrip (q.2.getD 3 ""))
            diferenca := 0 }
      else none := by
  obtain ⟨i, linha⟩ := q
  simp only [avaliaLinha, linhaQualificaSemValor, filtroPi, filtroJanela]
  by_cases h1 : linha.isEmpty = true
  · simp [h1]
  · simp only [h1]
    by_cases h2 : linha.length < 4
    · have h2b : ¬ 4 ≤ linha.length := by omega
      simp [h2, h2b, h1]
    · have h4 : 4 ≤ linha.length := by omega
      have h5 : 2 < linha.length := by omega
      have h6 : 3 < linha.length := by omega
      by_cases h3 : pyStrip (linha[0]?.getD "") = pyStrip pi
      · cases hp : parseCanonico (normalizar_data (pyStrip (linha.getD 1 "")) hoje) with
        | none => simp [h1, h2, h3, h4, hp]
        | some dObj =>
          by_cases hj :
              dentroJanela ((parseCanonico (normalizar_data data hoje)).getD hoje) dObj dias =
                true
          · simp [h1, h2, h3, h4, h5, h6, hp, hj]
          · simp [h1, h2, h3, h4, hp, hj]
      · simp [h1, h2, h3, h4]

/-- Claim C4: with a candidate value of exactly zero the percent test
degenerates (no division is performed: the guarded branch substitutes a
zero difference), so every row passing the token and window filters is
reported; the checker then returns the first such row and their count. -/
theorem claim_C4_zero_value_short_circuit :
    (∀ pi data cat dias hoje p linhas,
        p.outras_despesas = some linhas →
          verificar_valor_duplicado_pi pi 0 data cat dias hoje (some p) =
            match duplicatasSemValor pi data hoje dias linhas with
            | [] => ValorDupRes.naoDuplicada
            | d :: _ =>
              ValorDupRes.duplicada d (duplicatasSemValor pi data hoje dias linhas).length) ∧
      verificar_valor_duplicado_pi "ABC1234567" 0 "10/03/2024" none 100 hoje0
          (some planilhaExemplo) =
        ValorDupRes.duplicada ⟨2, "01/03/2024", "Frete", 1000, 0⟩ 1 := by
  refine ⟨?_, by decide⟩
  intro pi data cat dias hoje p linhas hout
  simp only [verificar_valor_duplicado_pi, hout]
  by_cases hlen : linhas.length ≤ 1
  · have hdrop := drop_one_nil_of_len_le hlen
    simp [hlen, duplicatasSemValor, hdrop, enum2]
  · simp only [hlen, if_false]
    unfold duplicatasSemValor
    rw [List.filterMap_congr fun q _ => avaliaLinhaZero_eq pi data hoje dias q]

/-- Witness for claim C4 at a concrete zero-value candidate. -/
theorem claim_C4_witness :
    planilhaExemplo.outras_despesas =
        some
          [["PI", "Data", "Categoria", "Valor", "Descricao", "Observacao"],
            ["ABC1234567", "01/03/2024", "Frete", "1000.00", "Frete", ""]] ∧
      verificar_valor_duplicado_pi "ABC1234567" 0 "10/03/2024" none 100 hoje0
          (some planilhaExemplo) =
        match
          duplicatasSemValor "ABC1234567" "10/03/2024" hoje0 100
            [["PI", "Data", "Categoria", "Valor", "Descricao", "Observacao"],
              ["ABC1234567", "01/03/2024", "Frete", "1000.00", "Frete", ""]] with
        | [] => ValorDupRes.naoDuplicada
        | d :: _ =>
          ValorDupRes.duplicada d
            (duplicatasSemValor "ABC1234567" "10/03/2024" hoje0 100
                [["PI", "Data", "Categoria", "Valor", "Descricao", "Observacao"],
                  ["ABC1234567", "01/03/2024", "Frete", "1000.00", "Frete", ""]]).length :=
  ⟨rfl,
    claim_C4_zero_value_short_circuit.1 "ABC1234567" "10/03/2024" none 100 hoje0
      planilhaExemplo _ rfl⟩

/-! ## Claim C7: invoice exact-match scan -/

theorem firstSome_congr {f g : α → Option β} :
    ∀ {l : List α}, (∀ a ∈ l, f a = g a) → firstSome f l = firstSome g l := by
  intro l h
  induction l with
  | nil => rfl
  | cons x xs ih =>
    unfold firstSome
    rw [h x (List.mem_cons_self _ _)]
    cases g x with
    | some b => rfl
    | none => exact ih fun a ha => h a (List.mem_cons_of_mem _ ha)

theorem firstSome_if_eq_find (p : α → Bool) (g : α → β) :
    ∀ l : List α,
      firstSome (fun x => if p x then some (g x) else none) l = (l.find? p).map g := by
  intro l
  induction l with
  | nil => rfl
  | cons x xs ih =>
    unfold firstSome
    rw [List.find?_cons]
    by_cases hx : p x = true
    · simp [hx]
    · have hx2 : p x = false := by
        cases hv : p x
        · rfl
        · exact absurd hv hx
      simp [hx2, ih]

theorem procuraNF_eq_spec (nf : String) (linhas : List (List String)) :
    procuraNF nf linhas =
      (procuraSpec nf linhas).map fun q =>
        ⟨nf, q.1, if 2 < q.2.length then q.2.getD 2 "" else "N/A"⟩ := by
  unfold procuraNF procuraSpec
  rw [←firstSome_if_eq_find]
  apply firstSome_congr
  intro q _
  by_cases h1 : q.2.isEmpty = true
  · have h0 : q.2.length = 0 := by
      cases hq : q.2
      · rfl
      · rw [hq] at h1; cases h1
    have h2 : ¬ (2 ≤ q.2.length) := by omega
    simp [h1, h2]
  · by_cases h2 : q.2.length < 2
    · have h2b : ¬ (2 ≤ q.2.length) := by omega
      simp [h1, h2, h2b]
    · have h2b : 2 ≤ q.2.length := by omega
      by_cases h3 : pyStrip (q.2.getD 1 "") = pyStrip nf
      · simp [h1, h2, h2b, h3]
      · simp [h1, h2, h2b, h3]

theorem verificarAbas_eq (nf : String) :
    ∀ abas : List (String × Option (List (List String))),
      (match
          firstSome
            (fun ab =>
              match ab.2 with
              | none => none
              | some linhas => (procuraNF nf linhas).map fun d => (ab.1, d))
            abas with
        | some r => XmlDupRes.duplicada r.1 r.2
        | none => XmlDupRes.naoDuplicada) =
        match
          firstSome
            (fun ab =>
              match ab.2 with
              | none => none
              | some linhas => (procuraSpec nf linhas).map fun q => (ab.1, q))
            abas with
        | none => XmlDupRes.naoDuplicada
        | some r =>
          XmlDupRes.duplicada r.1
            ⟨nf, r.2.1, if 2 < r.2.2.length then r.2.2.getD 2 "" else "N/A"⟩ := by
  intro abas
  induction abas with
  | nil => rfl
  | cons ab rest ih =>
    obtain ⟨nome, secOpt⟩ := ab
    cases secOpt with
    | none => simpa [firstSome] using ih
    | some linhas =>
      simp only [firstSome, procuraNF_eq_spec]
      cases hq : procuraSpec nf linhas with
      | none => simpa [hq, procuraNF_eq_spec] using ih
      | some q => simp [hq]

/-- Claim C7: `verificar_xml_duplicado` scans the three invoice-bearing
sections in fixed priority order, a row matching exactly when its trimmed
invoice-number cell equals the trimmed candidate (no numeric coercion, so
`007` and `7` are distinct), and returns the first matching row of the
first hitting section with its section name, row index and stored date. -/
theorem claim_C7_invoice_exact_match :
    (∀ nf ce v p,
        verificar_xml_duplicado nf ce v (some p) =
          match buscaSpec nf p with
          | none => XmlDupRes.naoDuplicada
          | some r =>
            XmlDupRes.duplicada r.1
              ⟨nf, r.2.1, if 2 < r.2.2.length then r.2.2.getD 2 "" else "N/A"⟩) ∧
      verificar_xml_duplicado "007" "" 0 (some planilhaExemplo) =
          XmlDupRes.duplicada "Importacao" ⟨"007", 2, "01/01/2024"⟩ ∧
        verificar_xml_duplicado "7" "" 0 (some planilhaExemplo) = XmlDupRes.naoDuplicada ∧
          pyStrip "007" ≠ pyStrip "7" := by
  refine ⟨?_, by decide, by decide, by decide⟩
  intro nf ce v p
  simp only [verificar_xml_duplicado, buscaSpec]
  exact verificarAbas_eq nf [("Importacao", p.importacao), ("Saida_1", p.saida_1),
    ("Saida_2", p.saida_2)]

/-! ## Claim C8: receipt value extraction -/

theorem mem_coletaPositivos {x : ℚ} :
    ∀ (vs : List (List Char)) (acc : List ℚ),
      x ∈ coletaPositivos vs acc ↔
        x ∈ acc ∨ (0 < x ∧ ∃ v ∈ vs, convInline v = some x) := by
  intro vs
  induction vs with
  | nil => intro acc; simp [coletaPositivos]
  | cons v vs ih =>
    intro acc
    unfold coletaPositivos
    cases hcv : convInline v with
    | none =>
      rw [ih]
      simp only [List.exists_mem_cons_iff, hcv]
      constructor
      · rintro (h | ⟨hp, hex⟩)
        · exact Or.inl h
        · exact Or.inr ⟨hp, Or.inr hex⟩
      · rintro (h | ⟨hp, hc | hex⟩)
        · exact Or.inl h
        · cases hc
        · exact Or.inr ⟨hp, hex⟩
    | some y =>
      dsimp only
      by_cases hy : 0 < y ∧ y ∉ acc
      · rw [if_pos hy, ih]
        simp only [List.exists_mem_cons_iff, hcv, List.mem_append, List.mem_singleton]
        constructor
        · rintro ((h | rfl) | ⟨hp, hex⟩)
          · exact Or.inl h
          · exact Or.inr ⟨hy.1, Or.inl rfl⟩
          · exact Or.inr ⟨hp, Or.inr hex⟩
        · rintro (h | ⟨hp, hc | hex⟩)
          · exact Or.inl (Or.inl h)
          · cases hc
            exact Or.inl (Or.inr rfl)
          · exact Or.inr ⟨hp, hex⟩
      · rw [if_neg hy, ih]
        push_neg at hy
        simp only [List.exists_mem_cons_iff, hcv]
        constructor
        · rintro (h | ⟨hp, hex⟩)
          · exact Or.inl h
          · exact Or.inr ⟨hp, Or.inr hex⟩
        · rintro (h | ⟨hp, hc | hex⟩)
          · exact Or.inl h
          · cases hc
            exact Or.inl (hy hp)
          · exact Or.inr ⟨hp, hex⟩

theorem nodup_coletaPositivos :
    ∀ (vs : List (List Char)) (acc : List ℚ), acc.Nodup → (coletaPositivos vs acc).Nodup := by
  intro vs
  induction vs with
  | nil => intro acc h; simpa [coletaPositivos] using h
  | cons v vs ih =>
    intro acc h
    unfold coletaPositivos
    cases hcv : convInline v with
    | none => exact ih acc h
    | some y =>
      dsimp only
      by_cases hy : 0 < y ∧ y ∉ acc
      · rw [if_pos hy]
        apply ih
        simp [List.nodup_append, h, hy.2]
      · rw [if_neg hy]
        exact ih acc h

theorem pairwise_and_of {R S : α → α → Prop} :
    ∀ {l : List α}, l.Pairwise R → l.Pairwise S → l.Pairwise fun a b => R a b ∧ S a b := by
  intro l h1 h2
  induction l with
  | nil => exact List.Pairwise.nil
  | cons a t ih =>
    rcases List.pairwise_cons.mp h1 with ⟨ha1, ht1⟩
    rcases List.pairwise_cons.mp h2 with ⟨ha2, ht2⟩
    exact List.pairwise_cons.mpr ⟨fun b hb => ⟨ha1 b hb, ha2 b hb⟩, ih ht1 ht2⟩

theorem mem_ordenaDesc {x : ℚ} {l : List ℚ} : x ∈ ordenaDesc l ↔ x ∈ l :=
  (List.perm_insertionSort relGE l).mem_iff

theorem pairwise_gt_ordenaDesc {l : List ℚ} (h : l.Nodup) :
    (ordenaDesc l).Pairwise fun a b => b < a := by
  have hs : (ordenaDesc l).Pairwise relGE := List.sorted_insertionSort relGE l
  have hn : (ordenaDesc l).Pairwise (fun a b => a ≠ b) :=
    ((List.perm_insertionSort relGE l).nodup_iff.mpr h)
  exact (pairwise_and_of hs hn).imp fun hab => lt_of_le_of_ne hab.1 fun hba => hab.2 hba.symm

/-- Counterexample to claim C8: on a text containing `TOTAL: BRL 1.234,56`
and `R$ 10,00` the result is not `[1234.56, 10.0]` - the US-format pattern
also matches the prefix `1.23` inside `1.234,56`. -/
theorem claim_C8_counterexample_spurious_us_match :
    extrair_valores_texto "TOTAL: BRL 1.234,56\nR$ 10,00" ≠ [1234.56, 10] ∧
      extrair_valores_texto "TOTAL: BRL 1.234,56\nR$ 10,00" = [1234.56, 10, 1.23] := by decide

/-- Claim C8 as amended: the result holds exactly the positive values of
the union of the five patterns' matches, deduplicated and sorted strictly
descending; on the concrete text the result is `[1234.56, 10.0, 1.23]`,
the extra `1.23` being the US-format pattern's match inside `1.234,56`. -/
theorem claim_C8_value_extraction_amended :
    (∀ (texto : String) (q : ℚ),
        q ∈ extrair_valores_texto texto ↔
          0 < q ∧ ∃ v ∈ todasCapturas texto.data, convInline v = some q) ∧
      (∀ texto : String, (extrair_valores_texto texto).Pairwise fun a b => b < a) ∧
        extrair_valores_texto "TOTAL: BRL 1.234,56\nR$ 10,00" = [1234.56, 10, 1.23] := by
  refine ⟨?_, ?_, by decide⟩
  · intro texto q
    unfold extrair_valores_texto
    rw [mem_ordenaDesc, mem_coletaPositivos]
    simp
  · intro texto
    exact pairwise_gt_ordenaDesc (nodup_coletaPositivos _ [] List.nodup_nil)

/-! ## Claim C9: locale round-trip. Digit-value lemmas -/

theorem charToDigit_digitChar10 {d : Nat} (h : d < 10) : charToDigit (digitChar10 d) = d := by
  interval_cases d <;> rfl

theorem digitChar10_isDigit {d : Nat} (h : d < 10) : (digitChar10 d).isDigit = true := by
  interval_cases d <;> rfl

theorem foldl_digits_acc :
    ∀ (b : List Char) (a : Nat),
      b.foldl (fun a c => 10 * a + charToDigit c) a = a * 10 ^ b.length + digitsVal b := by
  intro b
  induction b with
  | nil => intro a; simp [digitsVal]
  | cons c t ih =>
    intro a
    have h1 : (c :: t).foldl (fun a c => 10 * a + charToDigit c) a =
        t.foldl (fun a c => 10 * a + charToDigit c) (10 * a + charToDigit c) := rfl
    have h2 : digitsVal (c :: t) = t.foldl (fun a c => 10 * a + charToDigit c) (charToDigit c) := by
      simp [digitsVal]
    rw [h1, ih, h2, ih]
    ring_nf
    simp [List.length_cons, pow_succ]
    ring

theorem digitsVal_append (a b : List Char) :
    digitsVal (a ++ b) = digitsVal a * 10 ^ b.length + digitsVal b := by
  unfold digitsVal
  rw [List.foldl_append]
  exact foldl_digits_acc b _

theorem digitsVal_singleton (c : Char) : digitsVal [c] = charToDigit c := by
  simp [digitsVal]

theorem digitsVal_map_reverse :
    ∀ l : List Nat, (∀ d ∈ l, d < 10) →
      digitsVal ((l.map digitChar10).reverse) = Nat.ofDigits 10 l := by
  intro l
  induction l with
  | nil => intro _; simp [digitsVal, Nat.ofDigits_nil]
  | cons d t ih =>
    intro h
    have hd : d < 10 := h d (List.mem_cons_self _ _)
    have ht : ∀ e ∈ t, e < 10 := fun e he => h e (List.mem_cons_of_mem _ he)
    rw [List.map_cons, List.reverse_cons, digitsVal_append, ih ht, digitsVal_singleton,
      charToDigit_digitChar10 hd, Nat.ofDigits_cons]
    simp
    ring

theorem natDigitsRev_eq_digits : ∀ (fuel n : Nat), n ≤ fuel → natDigitsRev fuel n = Nat.digits 10 n := by
  intro fuel
  induction fuel with
  | zero =>
    intro n hn
    have : n = 0 := by omega
    subst this
    simp [natDigitsRev]
  | succ f ih =>
    intro n hn
    unfold natDigitsRev
    by_cases h0 : n = 0
    · subst h0; simp
    · rw [if_neg h0, Nat.digits_def' (by norm_num : (1:Nat) < 10) (Nat.pos_of_ne_zero h0)]
      have : n / 10 ≤ f := by
        have := Nat.div_lt_self (Nat.pos_of_ne_zero h0) (by norm_num : (1:Nat) < 10)
        omega
      rw [ih (n / 10) this]

theorem digitsVal_charDigits (n : Nat) : digitsVal (charDigits n) = n := by
  unfold charDigits
  by_cases h0 : n = 0
  · subst h0; decide
  · rw [if_neg h0, natDigitsRev_eq_digits n n (le_refl n)]
    rw [digitsVal_map_reverse _ fun d hd => Nat.digits_lt_base (by norm_num) hd]
    exact Nat.ofDigits_digits 10 n

theorem mem_charDigits_isDigit {n : Nat} {x : Char} (h : x ∈ charDigits n) : x.isDigit = true := by
  unfold charDigits at h
  by_cases h0 : n = 0
  · rw [if_pos h0] at h
    simp at h
    subst h
    rfl
  · rw [if_neg h0, natDigitsRev_eq_digits n n (le_refl n)] at h
    rw [List.mem_reverse, List.mem_map] at h
    rcases h with ⟨d, hd, rfl⟩
    exact digitChar10_isDigit (Nat.digits_lt_base (by norm_num) hd)

theorem allDigits_charDigits (n : Nat) : allDigits (charDigits n) = true := by
  unfold allDigits
  rw [List.all_eq_true]
  exact fun x hx => mem_charDigits_isDigit hx

theorem charDigits_ne_nil (n : Nat) : charDigits n ≠ [] := by
  unfold charDigits
  by_cases h0 : n = 0
  · simp [h0]
  · rw [if_neg h0, natDigitsRev_eq_digits n n (le_refl n)]
    simp [Nat.digits_ne_nil_iff_ne_zero.mpr h0]

theorem charDigits_length_le {n : Nat} (h : n < 1000) : (charDigits n).length ≤ 3 := by
  unfold charDigits
  by_cases h0 : n = 0
  · simp [h0]
  · rw [if_neg h0, natDigitsRev_eq_digits n n (le_refl n)]
    rw [List.length_reverse, List.length_map,
      Nat.digits_len 10 n (by norm_num) h0]
    have hlog : Nat.log 10 n < 3 :=
      (Nat.lt_pow_iff_log_lt (by norm_num) h0).mp (by norm_num; omega)
    omega

theorem charDigits_length_gt {n : Nat} (h : 1000 ≤ n) : 3 < (charDigits n).length := by
  unfold charDigits
  have h0 : n ≠ 0 := by omega
  rw [if_neg h0, natDigitsRev_eq_digits n n (le_refl n)]
  rw [List.length_reverse, List.length_map, Nat.digits_len 10 n (by norm_num) h0]
  have hlog : ¬ Nat.log 10 n < 3 := by
    intro hc
    have := (Nat.lt_pow_iff_log_lt (by norm_num : (1:Nat) < 10) h0).mpr hc
    norm_num at this
    omega
  omega

theorem digitsVal_doisDig {c : Nat} (h : c < 100) : digitsVal (doisDig c) = c := by
  unfold doisDig
  have h1 : c / 10 < 10 := by omega
  have h2 : c % 10 < 10 := by omega
  unfold digitsVal
  simp only [List.foldl_cons, List.foldl_nil, charToDigit_digitChar10 h1,
    charToDigit_digitChar10 h2]
  omega

theorem digitChar10_isDigit_all (d : Nat) : (digitChar10 d).isDigit = true := by
  unfold digitChar10
  split <;> rfl

theorem allDigits_doisDig (c : Nat) : allDigits (doisDig c) = true := by
  unfold allDigits doisDig
  rw [List.all_eq_true]
  intro x hx
  rcases List.mem_cons.mp hx with rfl | hx2
  · exact digitChar10_isDigit_all (c / 10)
  · rcases List.mem_cons.mp hx2 with rfl | hx3
    · exact digitChar10_isDigit_all (c % 10)
    · cases hx3

theorem digit_not_space {c : Char} (h : c.isDigit = true) : c.isWhitespace = false := by
  cases hw : c.isWhitespace
  · rfl
  · exfalso
    simp [Char.isWhitespace] at hw
    rcases hw with ((rfl | rfl) | rfl) | rfl <;> exact absurd h (by decide)

theorem digit_ne_plus {c : Char} (h : c.isDigit = true) : c ≠ '+' := fun hc => by
  rw [hc] at h; exact absurd h (by decide)

theorem digit_ne_minus {c : Char} (h : c.isDigit = true) : c ≠ '-' := fun hc => by
  rw [hc] at h; exact absurd h (by decide)

theorem digit_ne_erre {c : Char} (h : c.isDigit = true) : c ≠ 'R' := fun hc => by
  rw [hc] at h; exact absurd h (by decide)

theorem digit_ne_ponto {c : Char} (h : c.isDigit = true) : c ≠ '.' := fun hc => by
  rw [hc] at h; exact absurd h (by decide)

theorem digit_ne_virg {c : Char} (h : c.isDigit = true) : c ≠ ',' := fun hc => by
  rw [hc] at h; exact absurd h (by decide)

theorem dropWhileWS_eq_self {s : List Char} (h : ∀ c ∈ s, c.isWhitespace = false) :
    s.dropWhile Char.isWhitespace = s := by
  cases s with
  | nil => rfl
  | cons c t => simp [List.dropWhile_cons, h c (List.mem_cons_self _ _)]

theorem stripL_eq_self {s : List Char} (h : ∀ c ∈ s, c.isWhitespace = false) : stripL s = s := by
  unfold stripL
  rw [dropWhileWS_eq_self h, dropWhileWS_eq_self fun c hc => h c (List.mem_reverse.mp hc),
    List.reverse_reverse]

theorem removeRS_eq_self : ∀ (s : List Char), (∀ c ∈ s, c ≠ 'R') → removeRS s = s
  | [], _ => rfl
  | [_], _ => rfl
  | c :: d :: t, h => by
    unfold removeRS
    rw [if_neg fun hc => h c (List.mem_cons_self _ _) hc.1]
    rw [removeRS_eq_self (d :: t) fun x hx => h x (List.mem_cons_of_mem _ hx)]

theorem splitC_not_mem {c : Char} : ∀ {a : List Char}, c ∉ a → splitC c a = [a] := by
  intro a h
  induction a with
  | nil => rfl
  | cons x t ih =>
    have hx : ¬ x = c := fun hx => h (hx ▸ List.mem_cons_self _ _)
    have ht : c ∉ t := fun hm => h (List.mem_cons_of_mem _ hm)
    unfold splitC
    rw [if_neg hx, ih ht]

theorem splitC_append {c : Char} {b : List Char} :
    ∀ {a : List Char}, c ∉ a → splitC c (a ++ c :: b) = a :: splitC c b := by
  intro a ha
  induction a with
  | nil =>
    simp [List.nil_append, splitC]
  | cons x t ih =>
    have hx : ¬ x = c := fun hx => ha (hx ▸ List.mem_cons_self _ _)
    have ht : c ∉ t := fun hm => ha (List.mem_cons_of_mem _ hm)
    simp only [List.cons_append, splitC, List.append_eq]
    rw [if_neg hx, ih ht]

theorem parseFloat_digits_dot {ds cs : List Char} (hne : ds ≠ []) (hds : allDigits ds = true)
    (hcs : allDigits cs = true) :
    parseFloatL (ds ++ '.' :: cs) =
      some ((digitsVal ds : ℚ) + (digitsVal cs : ℚ) / (10 : ℚ) ^ cs.length) := by
  have hnos : ∀ x ∈ ds ++ '.' :: cs, x.isWhitespace = false := by
    intro x hx
    rcases List.mem_append.mp hx with h | h
    · exact digit_not_space (allDigits_mem hds h)
    · rcases List.mem_cons.mp h with rfl | h2
      · rfl
      · exact digit_not_space (allDigits_mem hcs h2)
  obtain ⟨d, ds', rfl⟩ : ∃ d ds', ds = d :: ds' := by
    cases ds with
    | nil => exact absurd rfl hne
    | cons d t => exact ⟨d, t, rfl⟩
  have hd : d.isDigit = true := allDigits_mem hds (List.mem_cons_self _ _)
  unfold parseFloatL
  dsimp only
  rw [stripL_eq_self hnos]
  have hD : ((d :: ds') ++ '.' :: cs).headD ' ' = d := rfl
  rw [hD]
  rw [if_neg (by push_neg; exact ⟨digit_ne_plus hd, digit_ne_minus hd⟩)]
  have hnegf : decide (d = '-') = false := by
    simp [digit_ne_minus hd]
  rw [hnegf]
  unfold parseFloatCore
  have hdsd : ('.' : Char) ∉ d :: ds' := fun hm => digit_ne_ponto (allDigits_mem hds hm) rfl
  have hcsd : ('.' : Char) ∉ cs := fun hm => digit_ne_ponto (allDigits_mem hcs hm) rfl
  rw [splitC_append hdsd, splitC_not_mem hcsd]
  dsimp only
  rw [if_pos ⟨by simp, hds, hcs⟩]
  rw [digitsVal_append]
  simp only [Bool.false_eq_true, if_false]
  congr 1
  push_cast
  have h10 : ((10 : ℚ) ^ cs.length) ≠ 0 := by positivity
  field_simp

theorem mem_juntaSep {sep x : Char} :
    ∀ {cs : List (List Char)}, x ∈ juntaSep sep cs → (∃ c ∈ cs, x ∈ c) ∨ x = sep
  | [], h => absurd h (List.not_mem_nil x)
  | [c], h => Or.inl ⟨c, List.mem_cons_self _ _, h⟩
  | c :: c2 :: cs, h => by
    rw [show juntaSep sep (c :: c2 :: cs) = c ++ sep :: juntaSep sep (c2 :: cs) from rfl] at h
    rcases List.mem_append.mp h with h1 | h2
    · exact Or.inl ⟨c, List.mem_cons_self _ _, h1⟩
    · rcases List.mem_cons.mp h2 with rfl | h3
      · exact Or.inr rfl
      · rcases mem_juntaSep h3 with ⟨cx, hcx, hx⟩ | heq
        · exact Or.inl ⟨cx, List.mem_cons_of_mem _ hcx, hx⟩
        · exact Or.inr heq

theorem drop_len_le {l : List Char} {n : Nat} (h : l.length ≤ n) : l.drop n = [] := by
  apply List.eq_nil_of_length_eq_zero
  rw [List.length_drop]
  omega

theorem pedacos3Go_nil : ∀ f : Nat, pedacos3Go f ([] : List Char) = [] := by
  intro f
  cases f <;> rfl

theorem flatten_pedacos3Go :
    ∀ (f : Nat) (l : List Char), l.length ≤ f → (pedacos3Go f l).flatten = l := by
  intro f
  induction f with
  | zero =>
    intro l hl
    have : l = [] := List.eq_nil_of_length_eq_zero (by omega)
    subst this
    rfl
  | succ f ih =>
    intro l hl
    cases l with
    | nil => rfl
    | cons x xs =>
      show ((x :: xs).take 3 :: pedacos3Go f ((x :: xs).drop 3)).flatten = x :: xs
      rw [List.flatten_cons, ih _ (by rw [List.length_drop]; simp at hl ⊢; omega)]
      exact List.take_append_drop 3 (x :: xs)

theorem flatten_pedacos3 (l : List Char) : (pedacos3 l).flatten = l :=
  flatten_pedacos3Go l.length l (le_refl _)

theorem mem_of_mem_pedacos3 {l c : List Char} (hc : c ∈ pedacos3 l) {x : Char} (hx : x ∈ c) :
    x ∈ l := by
  rw [←flatten_pedacos3 l]
  exact List.mem_flatten_of_mem hc hx

theorem removeChar_eq_self {a : Char} {s : List Char} (h : ∀ x ∈ s, x ≠ a) :
    removeChar a s = s := by
  unfold removeChar
  rw [List.filter_eq_self]
  intro x hx
  simpa using h x hx

theorem removeChar_juntaSep {sep : Char} :
    ∀ cs : List (List Char), (∀ c ∈ cs, ∀ x ∈ c, x ≠ sep) →
      removeChar sep (juntaSep sep cs) = cs.flatten
  | [], _ => rfl
  | [c], h => by
    show removeChar sep c = [c].flatten
    rw [removeChar_eq_self (h c (List.mem_cons_self _ _))]
    simp
  | c :: c2 :: cs, h => by
    show removeChar sep (c ++ sep :: juntaSep sep (c2 :: cs)) = (c :: c2 :: cs).flatten
    unfold removeChar
    rw [List.filter_append, List.filter_cons]
    simp only [decide_True, Bool.not_true, Bool.false_eq_true, if_false]
    have h1 := removeChar_juntaSep (c2 :: cs) fun d hd => h d (List.mem_cons_of_mem _ hd)
    unfold removeChar at h1
    rw [h1]
    rw [List.filter_eq_self.mpr fun x hx => by
      simpa using h c (List.mem_cons_self _ _) x hx]
    simp

theorem agrupa3_remove {sep : Char} {ds : List Char} (h : ∀ x ∈ ds, x ≠ sep) :
    removeChar sep (agrupa3 sep ds) = ds := by
  unfold agrupa3 removeChar
  rw [List.filter_reverse]
  have h2 : ∀ c ∈ pedacos3 ds.reverse, ∀ x ∈ c, x ≠ sep := fun c hc x hx =>
    h x (List.mem_reverse.mp (mem_of_mem_pedacos3 hc hx))
  have h3 := removeChar_juntaSep (pedacos3 ds.reverse) h2
  unfold removeChar at h3
  rw [h3, flatten_pedacos3, List.reverse_reverse]

theorem mem_agrupa3 {sep : Char} {ds : List Char} {x : Char} (h : x ∈ agrupa3 sep ds) :
    x ∈ ds ∨ x = sep := by
  unfold agrupa3 at h
  rw [List.mem_reverse] at h
  rcases mem_juntaSep h with ⟨c, hc, hx⟩ | heq
  · exact Or.inl (List.mem_reverse.mp (mem_of_mem_pedacos3 hc hx))
  · exact Or.inr heq

theorem agrupa3_short {sep : Char} {ds : List Char} (hne : ds ≠ []) (hlen : ds.length ≤ 3) :
    agrupa3 sep ds = ds := by
  unfold agrupa3 pedacos3
  cases hrev : ds.reverse with
  | nil => exact absurd (by simpa using congrArg List.reverse hrev) hne
  | cons x xs =>
    have hl : (x :: xs).length ≤ 3 := by
      have h2 := congrArg List.length hrev
      rw [List.length_reverse] at h2
      omega
    show (juntaSep sep (pedacos3Go (x :: xs).length (x :: xs))).reverse = ds
    rw [show (x :: xs).length = xs.length + 1 from rfl]
    show (juntaSep sep ((x :: xs).take 3 :: pedacos3Go xs.length ((x :: xs).drop 3))).reverse = ds
    rw [drop_len_le hl, pedacos3Go_nil, List.take_of_length_le hl]
    show (x :: xs).reverse = ds
    rw [←hrev, List.reverse_reverse]

theorem sep_mem_agrupa3 {sep : Char} {ds : List Char} (h : 3 < ds.length) :
    sep ∈ agrupa3 sep ds := by
  unfold agrupa3 pedacos3
  rw [List.mem_reverse]
  cases hrev : ds.reverse with
  | nil =>
    have h2 := congrArg List.length hrev
    rw [List.length_reverse] at h2
    simp at h2
    subst h2
    simp at h
  | cons x xs =>
    have hxs : 3 ≤ xs.length := by
      have h2 := congrArg List.length hrev
      rw [List.length_reverse] at h2
      simp [List.length_cons] at h2
      omega
    rw [show (x :: xs).length = xs.length + 1 from rfl]
    show sep ∈ juntaSep sep ((x :: xs).take 3 :: pedacos3Go xs.length ((x :: xs).drop 3))
    have hdne : (x :: xs).drop 3 ≠ [] := by
      intro hc
      have := congrArg List.length hc
      rw [List.length_drop] at this
      simp at this
      omega
    obtain ⟨y, ys, hdrop⟩ : ∃ y ys, (x :: xs).drop 3 = y :: ys := by
      cases hd : (x :: xs).drop 3 with
      | nil => exact absurd hd hdne
      | cons y ys => exact ⟨y, ys, rfl⟩
    rw [hdrop]
    obtain ⟨k, hk⟩ : ∃ k, xs.length = k + 1 := ⟨xs.length - 1, by omega⟩
    rw [hk]
    show sep ∈ juntaSep sep ((x :: xs).take 3 :: (y :: ys).take 3 :: pedacos3Go k ((y :: ys).drop 3))
    rw [show juntaSep sep
        ((x :: xs).take 3 :: (y :: ys).take 3 :: pedacos3Go k ((y :: ys).drop 3)) =
        (x :: xs).take 3 ++
          sep :: juntaSep sep ((y :: ys).take 3 :: pedacos3Go k ((y :: ys).drop 3)) from rfl]
    simp

theorem countC_append (c : Char) (a b : List Char) :
    countC c (a ++ b) = countC c a + countC c b := by
  induction a with
  | nil => simp [countC]
  | cons x t ih =>
    simp only [List.cons_append, countC, List.append_eq, ih]
    omega

theorem countC_eq_zero {c : Char} : ∀ {s : List Char}, c ∉ s → countC c s = 0 := by
  intro s h
  induction s with
  | nil => rfl
  | cons x t ih =>
    unfold countC
    have hx : ¬ x = c := fun hx => h (hx ▸ List.mem_cons_self _ _)
    rw [if_neg hx, ih fun hm => h (List.mem_cons_of_mem _ hm)]

theorem rfindC_not_mem {c : Char} : ∀ {s : List Char}, c ∉ s → rfindC c s = -1 := by
  intro s h
  induction s with
  | nil => rfl
  | cons x t ih =>
    unfold rfindC
    rw [ih fun hm => h (List.mem_cons_of_mem _ hm)]
    have hx : ¬ x = c := fun hx => h (hx ▸ List.mem_cons_self _ _)
    simp [hx]

theorem rfindC_bounds {c : Char} :
    ∀ {s : List Char}, c ∈ s → 0 ≤ rfindC c s ∧ rfindC c s < s.length := by
  intro s h
  induction s with
  | nil => cases h
  | cons x t ih =>
    unfold rfindC
    by_cases hct : c ∈ t
    · rcases ih hct with ⟨h1, h2⟩
      rw [if_pos h1]
      constructor <;> [omega; (simp; omega)]
    · rw [rfindC_not_mem hct]
      have hx : x = c := by
        rcases List.mem_cons.mp h with heq | hm
        · exact heq.symm
        · exact absurd hm hct
      simp [hx]

theorem rfindC_cons (c x : Char) (t : List Char) :
    rfindC c (x :: t) =
      if 0 ≤ rfindC c t then rfindC c t + 1 else if x = c then 0 else -1 := rfl

theorem rfindC_append_right {c : Char} {b : List Char} (hb : c ∈ b) :
    ∀ a : List Char, rfindC c (a ++ b) = a.length + rfindC c b := by
  intro a
  induction a with
  | nil => simp
  | cons x t ih =>
    simp only [List.cons_append]
    rw [rfindC_cons, ih]
    have h0 : 0 ≤ rfindC c b := (rfindC_bounds hb).1
    rw [if_pos (by omega)]
    simp
    omega

theorem rfindC_append_left {c : Char} {b : List Char} (hb : c ∉ b) :
    ∀ a : List Char, rfindC c (a ++ b) = rfindC c a := by
  intro a
  induction a with
  | nil =>
    rw [List.nil_append, rfindC_not_mem hb]
    rfl
  | cons x t ih =>
    simp only [List.cons_append]
    rw [rfindC_cons, ih, rfindC_cons]

theorem containsC_false_of_not_mem {c : Char} {s : List Char} (h : c ∉ s) :
    containsC c s = false := by
  cases hv : containsC c s
  · rfl
  · exfalso
    unfold containsC at hv
    rw [List.any_eq_true] at hv
    rcases hv with ⟨x, hx, hxe⟩
    simp at hxe
    exact h (hxe ▸ hx)

theorem mem_format_us {n c : Nat} {x : Char} (hx : x ∈ format_us_lista n c) :
    x.isDigit = true ∨ x = ',' ∨ x = '.' := by
  unfold format_us_lista at hx
  rcases List.mem_append.mp hx with h | h
  · rcases mem_agrupa3 h with h1 | h1
    · exact Or.inl (mem_charDigits_isDigit h1)
    · exact Or.inr (Or.inl h1)
  · rcases List.mem_cons.mp h with rfl | h2
    · exact Or.inr (Or.inr rfl)
    · exact Or.inl (allDigits_mem (allDigits_doisDig c) h2)

theorem mem_format_br {n c : Nat} {x : Char} (hx : x ∈ format_brasileiro_lista n c) :
    x.isDigit = true ∨ x = ',' ∨ x = '.' := by
  unfold format_brasileiro_lista at hx
  rcases List.mem_append.mp hx with h | h
  · rcases mem_agrupa3 h with h1 | h1
    · exact Or.inl (mem_charDigits_isDigit h1)
    · exact Or.inr (Or.inr h1)
  · rcases List.mem_cons.mp h with rfl | h2
    · exact Or.inr (Or.inl rfl)
    · exact Or.inl (allDigits_mem (allDigits_doisDig c) h2)

theorem ponto_not_mem_grupo_virg {n : Nat} : ('.' : Char) ∉ agrupa3 ',' (charDigits n) := by
  intro hm
  rcases mem_agrupa3 hm with h1 | h1
  · exact digit_ne_ponto (mem_charDigits_isDigit h1) rfl
  · cases h1

theorem virg_not_mem_grupo_ponto {n : Nat} : (',' : Char) ∉ agrupa3 '.' (charDigits n) := by
  intro hm
  rcases mem_agrupa3 hm with h1 | h1
  · exact digit_ne_virg (mem_charDigits_isDigit h1) rfl
  · cases h1

theorem ponto_not_mem_doisDig {c : Nat} : ('.' : Char) ∉ doisDig c := fun hm =>
  digit_ne_ponto (allDigits_mem (allDigits_doisDig c) hm) rfl

theorem virg_not_mem_doisDig {c : Nat} : (',' : Char) ∉ doisDig c := fun hm =>
  digit_ne_virg (allDigits_mem (allDigits_doisDig c) hm) rfl

theorem virg_not_mem_charDigits {n : Nat} : (',' : Char) ∉ charDigits n := fun hm =>
  digit_ne_virg (mem_charDigits_isDigit hm) rfl

theorem ponto_not_mem_charDigits {n : Nat} : ('.' : Char) ∉ charDigits n := fun hm =>
  digit_ne_ponto (mem_charDigits_isDigit hm) rfl

theorem convL_format_us (n c : Nat) (hc : c < 100) :
    convL (format_us_lista n c) = (n : ℚ) + (c : ℚ) / 100 := by
  have hds := allDigits_charDigits n
  have hcc := allDigits_doisDig c
  have hdsne := charDigits_ne_nil n
  have hnosp : ∀ x ∈ format_us_lista n c, x.isWhitespace = false := by
    intro x hx
    rcases mem_format_us hx with h | rfl | rfl
    · exact digit_not_space h
    · rfl
    · rfl
  have hnoR : ∀ x ∈ format_us_lista n c, x ≠ 'R' := by
    intro x hx
    rcases mem_format_us hx with h | rfl | rfl
    · exact digit_ne_erre h
    · decide
    · decide
  have hne : format_us_lista n c ≠ [] := by
    unfold format_us_lista
    intro hcon
    rcases List.append_eq_nil.mp hcon with ⟨_, h2⟩
    cases h2
  unfold convL
  rw [if_neg hne]
  dsimp only
  rw [stripL_eq_self hnosp, removeRS_eq_self _ hnoR, stripL_eq_self hnosp]
  have hvcc : (',' : Char) ∉ '.' :: doisDig c := by
    intro hm
    rcases List.mem_cons.mp hm with h | h
    · cases h
    · exact virg_not_mem_doisDig h
  by_cases hn : n < 1000
  · have hGds : agrupa3 ',' (charDigits n) = charDigits n :=
      agrupa3_short hdsne (charDigits_length_le hn)
    unfold format_us_lista
    rw [hGds]
    have hnoc : (',' : Char) ∉ charDigits n ++ '.' :: doisDig c := by
      intro hm
      rcases List.mem_append.mp hm with h | h
      · exact virg_not_mem_charDigits h
      · exact hvcc h
    rw [containsC_false_of_not_mem hnoc]
    simp only [Bool.false_and, Bool.false_eq_true, if_false]
    rw [parseFloat_digits_dot hdsne hds hcc]
    rw [digitsVal_charDigits, digitsVal_doisDig hc]
    norm_num [doisDig]
  · have hlen3 := charDigits_length_gt (by omega : 1000 ≤ n)
    have hcm : (',' : Char) ∈ agrupa3 ',' (charDigits n) := sep_mem_agrupa3 hlen3
    unfold format_us_lista
    have hcont1 : containsC ',' (agrupa3 ',' (charDigits n) ++ '.' :: doisDig c) = true :=
      containsC_true_of_mem (List.mem_append.mpr (Or.inl hcm))
    have hcont2 : containsC '.' (agrupa3 ',' (charDigits n) ++ '.' :: doisDig c) = true :=
      containsC_true_of_mem (List.mem_append.mpr (Or.inr (List.mem_cons_self _ _)))
    rw [hcont1, hcont2]
    simp only [Bool.and_self, if_true]
    have hrp : rfindC '.' (agrupa3 ',' (charDigits n) ++ '.' :: doisDig c) =
        (agrupa3 ',' (charDigits n)).length := by
      rw [rfindC_append_right (List.mem_cons_self _ _), rfindC_cons,
        rfindC_not_mem ponto_not_mem_doisDig]
      simp
    have hrv : rfindC ',' (agrupa3 ',' (charDigits n) ++ '.' :: doisDig c) =
        rfindC ',' (agrupa3 ',' (charDigits n)) := rfindC_append_left hvcc _
    have hbound := rfindC_bounds hcm
    rw [if_neg (by rw [hrp, hrv]; omega)]
    unfold removeChar
    rw [List.filter_append]
    have h1 : (agrupa3 ',' (charDigits n)).filter (fun x => !(x = ',')) = charDigits n := by
      have hrem : removeChar ',' (agrupa3 ',' (charDigits n)) = charDigits n :=
        agrupa3_remove fun x hx => digit_ne_virg (mem_charDigits_isDigit hx)
      unfold removeChar at hrem
      exact hrem
    have h2 : ('.' :: doisDig c).filter (fun x => !(x = ',')) = '.' :: doisDig c := by
      have hrem := removeChar_eq_self (a := ',') (s := '.' :: doisDig c) fun x hx hcon =>
        hvcc (hcon ▸ hx)
      unfold removeChar at hrem
      exact hrem
    rw [h1, h2, parseFloat_digits_dot hdsne hds hcc, digitsVal_charDigits,
      digitsVal_doisDig hc]
    norm_num [doisDig]

theorem trocaChar_eq_self {a b : Char} : ∀ {s : List Char}, a ∉ s → trocaChar a b s = s := by
  intro s h
  induction s with
  | nil => rfl
  | cons x t ih =>
    unfold trocaChar
    have hx : ¬ x = a := fun hx => h (hx ▸ List.mem_cons_self _ _)
    simp only [List.map_cons, if_neg hx]
    have ht := ih fun hm => h (List.mem_cons_of_mem _ hm)
    unfold trocaChar at ht
    rw [ht]

theorem convL_format_br (n c : Nat) (hc : c < 100) :
    convL (format_brasileiro_lista n c) = (n : ℚ) + (c : ℚ) / 100 := by
  have hds := allDigits_charDigits n
  have hcc := allDigits_doisDig c
  have hdsne := charDigits_ne_nil n
  have hnosp : ∀ x ∈ format_brasileiro_lista n c, x.isWhitespace = false := by
    intro x hx
    rcases mem_format_br hx with h | rfl | rfl
    · exact digit_not_space h
    · rfl
    · rfl
  have hnoR : ∀ x ∈ format_brasileiro_lista n c, x ≠ 'R' := by
    intro x hx
    rcases mem_format_br hx with h | rfl | rfl
    · exact digit_ne_erre h
    · decide
    · decide
  have hne : format_brasileiro_lista n c ≠ [] := by
    unfold format_brasileiro_lista
    intro hcon
    rcases List.append_eq_nil.mp hcon with ⟨_, h2⟩
    cases h2
  unfold convL
  rw [if_neg hne]
  dsimp only
  rw [stripL_eq_self hnosp, removeRS_eq_self _ hnoR, stripL_eq_self hnosp]
  have hpcc : ('.' : Char) ∉ ',' :: doisDig c := by
    intro hm
    rcases List.mem_cons.mp hm with h | h
    · cases h
    · exact ponto_not_mem_doisDig h
  have htr : trocaChar ',' '.' (charDigits n ++ ',' :: doisDig c) =
      charDigits n ++ '.' :: doisDig c := by
    unfold trocaChar
    rw [List.map_append]
    have h1 := trocaChar_eq_self (a := ',') (b := '.') (virg_not_mem_charDigits (n := n))
    unfold trocaChar at h1
    rw [h1]
    simp only [List.map_cons]
    have h2 := trocaChar_eq_self (a := ',') (b := '.') (virg_not_mem_doisDig (c := c))
    unfold trocaChar at h2
    rw [h2]
    simp
  by_cases hn : n < 1000
  · have hGds : agrupa3 '.' (charDigits n) = charDigits n :=
      agrupa3_short hdsne (charDigits_length_le hn)
    unfold format_brasileiro_lista
    rw [hGds]
    have hnop : ('.' : Char) ∉ charDigits n ++ ',' :: doisDig c := by
      intro hm
      rcases List.mem_append.mp hm with h | h
      · exact ponto_not_mem_charDigits h
      · exact hpcc h
    rw [containsC_false_of_not_mem hnop]
    simp only [Bool.and_false, Bool.false_eq_true, if_false]
    rw [containsC_true_of_mem
      (List.mem_append.mpr (Or.inr (List.mem_cons_self _ _)) :
        (',' : Char) ∈ charDigits n ++ ',' :: doisDig c)]
    simp only [if_true]
    have hcount : countC ',' (charDigits n ++ ',' :: doisDig c) = 1 := by
      rw [countC_append, countC_eq_zero virg_not_mem_charDigits]
      show 0 + ((if (',' : Char) = ',' then 1 else 0) + countC ',' (doisDig c)) = 1
      rw [if_pos rfl, countC_eq_zero virg_not_mem_doisDig]
    rw [hcount]
    simp only [if_true]
    rw [splitC_append virg_not_mem_charDigits, splitC_not_mem virg_not_mem_doisDig]
    show (if (([charDigits n, doisDig c].getD 1 []).length = 2) then _ else _) = _
    rw [if_pos (by simp [doisDig])]
    rw [htr, parseFloat_digits_dot hdsne hds hcc, digitsVal_charDigits, digitsVal_doisDig hc]
    norm_num [doisDig]
  · have hlen3 := charDigits_length_gt (by omega : 1000 ≤ n)
    have hpm : ('.' : Char) ∈ agrupa3 '.' (charDigits n) := sep_mem_agrupa3 hlen3
    unfold format_brasileiro_lista
    have hcont1 : containsC ',' (agrupa3 '.' (charDigits n) ++ ',' :: doisDig c) = true :=
      containsC_true_of_mem (List.mem_append.mpr (Or.inr (List.mem_cons_self _ _)))
    have hcont2 : containsC '.' (agrupa3 '.' (charDigits n) ++ ',' :: doisDig c) = true :=
      containsC_true_of_mem (List.mem_append.mpr (Or.inl hpm))
    rw [hcont1, hcont2]
    simp only [Bool.and_self, if_true]
    have hrv : rfindC ',' (agrupa3 '.' (charDigits n) ++ ',' :: doisDig c) =
        (agrupa3 '.' (charDigits n)).length := by
      rw [rfindC_append_right (List.mem_cons_self _ _), rfindC_cons,
        rfindC_not_mem virg_not_mem_doisDig]
      simp
    have hrp : rfindC '.' (agrupa3 '.' (charDigits n) ++ ',' :: doisDig c) =
        rfindC '.' (agrupa3 '.' (charDigits n)) := rfindC_append_left hpcc _
    have hbound := rfindC_bounds hpm
    rw [if_pos (by rw [hrp, hrv]; omega)]
    have hrem : removeChar '.' (agrupa3 '.' (charDigits n) ++ ',' :: doisDig c) =
        charDigits n ++ ',' :: doisDig c := by
      unfold removeChar
      rw [List.filter_append]
      have h1 : removeChar '.' (agrupa3 '.' (charDigits n)) = charDigits n :=
        agrupa3_remove fun x hx => digit_ne_ponto (mem_charDigits_isDigit hx)
      unfold removeChar at h1
      rw [h1]
      have h2 := removeChar_eq_self (a := '.') (s := ',' :: doisDig c) fun x hx hcon =>
        hpcc (hcon ▸ hx)
      unfold removeChar at h2
      rw [h2]
    rw [hrem, htr, parseFloat_digits_dot hdsne hds hcc, digitsVal_charDigits,
      digitsVal_doisDig hc]
    norm_num [doisDig]

/-- Claim C9: for every amount with at most two fractional digits (integer
part `n`, cent part `c < 100`), both the Brazilian rendering (dot
thousands separators, comma decimal) and the US rendering (comma
thousands separators, dot decimal) normalize back to the amount; in
particular both `R$ 29.091,89` and `29,091.89` normalize to `29091.89`. -/
theorem claim_C9_locale_round_trip :
    (∀ n c : Nat, c < 100 →
        converter_valor_para_float (format_brasileiro n c) = (n : ℚ) + (c : ℚ) / 100 ∧
          converter_valor_para_float (format_us n c) = (n : ℚ) + (c : ℚ) / 100) ∧
      converter_valor_para_float "R$ 29.091,89" = 29091.89 ∧
        converter_valor_para_float "29,091.89" = 29091.89 := by
  refine ⟨?_, by decide, by decide⟩
  intro n c hc
  exact ⟨convL_format_br n c hc, convL_format_us n c hc⟩

/-- Witness for claim C9 at the concrete amount `29091.89`. -/
theorem claim_C9_witness :
    (89 : Nat) < 100 ∧
      converter_valor_para_float (format_brasileiro 29091 89) =
          (29091 : ℚ) + (89 : ℚ) / 100 ∧
        converter_valor_para_float (format_us 29091 89) = (29091 : ℚ) + (89 : ℚ) / 100 :=
  ⟨by decide, claim_C9_locale_round_trip.1 29091 89 (by decide)⟩
